import Mathlib

/-!
Shallow embedding of the cto-af/ca certificate-authority core
(src/index.ts, src/cert.ts, src/keychain.ts, src/utils.ts) and proofs
about its renewal decision, on-disk caching, secret-store migration and
error behaviour.

Modelling conventions:
* JavaScript Date values are integer Unix milliseconds (`Int`); day
  counts (minRunDays, notAfterDays) are integers.
* A PEM-encoded certificate is represented by the parsed `Cert` record;
  a file holds either such a certificate or arbitrary non-certificate
  text (`FileData`), mirroring that jsrsasign PEM encoding is injective
  and that parsing fails exactly on non-certificate bytes.
* The filesystem and the OS keychain are association lists inside `Sys`;
  keypair generation is modelled by the deterministic counter `Sys.gen`,
  so each generated private key is distinct from all earlier ones.
* Every effectful operation returns `Except Err α × Sys × List Eff`; the
  `Eff` trace records filesystem and secret-store accesses in order, and
  a thrown JS exception is `Except.error`.
* `issue` in the source calls `new Date()` again after `init`; both
  instants are the single parameter `now` (a same-millisecond call).
-/

namespace CtoCA

/-- Milliseconds per day, from src/utils.ts (DAY_ms). -/
def DAY_ms : Int := 24 * 60 * 60 * 1000

/-- Model of daysFromNow (src/utils.ts). -/
def daysFromNow (days : Int) (now : Int) : Int := now + days * DAY_ms

/-- jsrsasign datetozulu/zulutodate round trip with flagMilli false:
the encoded validity timestamps have seconds resolution, so milliseconds
are truncated. -/
def zulu (t : Int) : Int := t - t % 1000

/-- Subject-alternative-name entry (jsrsasign GeneralName as used here). -/
inductive GeneralName where
  | ip (addr : String)
  | dns (host : String)
deriving DecidableEq

/-- Approximation of the node net.isIP collaborator: nonzero exactly on
strings containing a colon (IPv6) or dotted-quad numeric strings. -/
def isIP (s : String) : Bool :=
  s.data.any (fun c => c = ':') ||
    (decide (s.data ≠ []) && s.data.all (fun c => c.isDigit || c = '.') &&
      decide ((s.data.filter (fun c => c = '.')).length = 3))

/-- Model of altNames (src/index.ts). -/
def altNames (hosts : List String) : List GeneralName :=
  hosts.map (fun h => if isIP h then .ip h else .dns h)

/-- Parsed view of an X.509 certificate: the fields the core reads back
from a PEM (issuer and subject DN strings, serial, validity window, SAN
entries) together with the construction inputs that make the encoded
bytes unique (subject public key, signing key, CA flag). -/
structure Cert where
  issuer : String
  subject : String
  serial : Int
  notBefore : Int
  notAfter : Int
  san : List GeneralName
  isCA : Bool
  pubKey : Nat
  sigKey : String
deriving DecidableEq

/-- Bytes stored in a file: either a well-formed PEM certificate or
non-certificate text (raw key bytes, junk). -/
inductive FileData where
  | pem (c : Cert)
  | text (s : String)
deriving DecidableEq

/-- Stand-in for the utf8 contents of a certificate file, used only when
generic file bytes are demanded of a certificate entry. -/
def certPemString (c : Cert) : String :=
  c.issuer ++ "|" ++ c.subject ++ "|" ++ toString c.serial ++ "|" ++
    toString c.notBefore ++ "|" ++ toString c.notAfter

/-- File contents as the string fs.readFile would return. -/
def FileData.toBytes : FileData → String
  | .pem c => certPemString c
  | .text s => s

/-- A filesystem entry: a regular file or a directory. -/
inductive FsEntry where
  | file (d : FileData)
  | dir
deriving DecidableEq

/-- Association-list lookup. -/
def alookup {κ ν : Type} [DecidableEq κ] : List (κ × ν) → κ → Option ν
  | [], _ => none
  | (q, v) :: rest, k => if q = k then some v else alookup rest k

/-- Association-list insert or replace. -/
def aset {κ ν : Type} [DecidableEq κ] : List (κ × ν) → κ → ν → List (κ × ν)
  | [], k, v => [(k, v)]
  | (q, w) :: rest, k, v => if q = k then (k, v) :: rest else (q, w) :: aset rest k v

/-- Association-list removal. -/
def aremove {κ ν : Type} [DecidableEq κ] : List (κ × ν) → κ → List (κ × ν)
  | [], _ => []
  | (q, w) :: rest, k => if q = k then aremove rest k else (q, w) :: aremove rest k

/-- World state: filesystem, OS secret store keyed by service and
account, and the keypair-generation counter standing in for the
randomness of rs.KEYUTIL.generateKeypair. -/
structure Sys where
  fs : List (String × FsEntry)
  secrets : List ((String × String) × String)
  gen : Nat
deriving DecidableEq

def Sys.fsGet (st : Sys) (p : String) : Option FsEntry := alookup st.fs p

def Sys.fsSet (st : Sys) (p : String) (e : FsEntry) : Sys :=
  { st with fs := aset st.fs p e }

def Sys.fsRm (st : Sys) (p : String) : Sys :=
  { st with fs := aremove st.fs p }

def Sys.secGet (st : Sys) (service account : String) : Option String :=
  alookup st.secrets (service, account)

def Sys.secSet (st : Sys) (service account secret : String) : Sys :=
  { st with secrets := aset st.secrets (service, account) secret }

def Sys.secDel (st : Sys) (service account : String) : Sys :=
  { st with secrets := aremove st.secrets (service, account) }

/-- One filesystem or secret-store access. -/
inductive Eff where
  | fsRead (p : String)
  | fsWrite (p : String)
  | fsRm (p : String)
  | fsMkdir (p : String)
  | fsStat (p : String)
  | kcGet (service account : String)
  | kcSet (service account : String)
  | kcDel (service account : String)
deriving DecidableEq

/-- Thrown errors. -/
inductive Err where
  | enoent
  | eisdir
  | parseError
  | hostsRequired
  | keyRequired
  | onlySingleHost
  | notTempIssueNew
  | assertFailed
deriving DecidableEq

instance instDecEqExcept {ε α : Type} [DecidableEq ε] [DecidableEq α] :
    DecidableEq (Except ε α) := fun x y =>
  match x, y with
  | .ok a, .ok b =>
    if h : a = b then .isTrue (congrArg Except.ok h)
    else .isFalse (fun he => h (Except.ok.inj he))
  | .error e, .error f =>
    if h : e = f then .isTrue (congrArg Except.error h)
    else .isFalse (fun he => h (Except.error.inj he))
  | .ok _, .error _ => .isFalse (fun he => Except.noConfusion he)
  | .error _, .ok _ => .isFalse (fun he => Except.noConfusion he)

/-- Result of an async operation: outcome, post-state, ordered I/O
trace. -/
abbrev MRes (α : Type) := Except Err α × Sys × List Eff

/-- Sequencing with trace accumulation (a JS await chain). -/
def bindRes {α β : Type} (x : MRes α) (f : α → Sys → MRes β) : MRes β :=
  match x with
  | (.ok a, st, tr) =>
    match f a st with
    | (r, st2, tr2) => (r, st2, tr ++ tr2)
  | (.error e, st, tr) => (.error e, st, tr)

/-- Model of fs.readFile. -/
def readFileM (st : Sys) (p : String) : MRes FileData :=
  match st.fsGet p with
  | none => (.error .enoent, st, [.fsRead p])
  | some .dir => (.error .eisdir, st, [.fsRead p])
  | some (.file d) => (.ok d, st, [.fsRead p])

/-- Model of fs.writeFile. -/
def writeFileM (st : Sys) (p : String) (d : FileData) : MRes Unit :=
  match st.fsGet p with
  | some .dir => (.error .eisdir, st, [.fsWrite p])
  | _ => (.ok (), st.fsSet p (.file d), [.fsWrite p])

/-- Model of fs.rm without the recursive flag. -/
def rmM (st : Sys) (p : String) : MRes Unit :=
  match st.fsGet p with
  | none => (.error .enoent, st, [.fsRm p])
  | some .dir => (.error .eisdir, st, [.fsRm p])
  | some (.file _) => (.ok (), st.fsRm p, [.fsRm p])

/-- Model of fs.stat. -/
def statM (st : Sys) (p : String) : MRes Unit :=
  match st.fsGet p with
  | none => (.error .enoent, st, [.fsStat p])
  | some _ => (.ok (), st, [.fsStat p])

/-- Model of fs.mkdir with recursive true: never fails, directories are
not tracked as entries. -/
def mkdirM (st : Sys) (p : String) : MRes Unit :=
  (.ok (), st, [.fsMkdir p])

/-- Model of AsyncEntry.getPassword: none when the entry is missing. -/
def getPasswordM (st : Sys) (service account : String) :
    Option String × Sys × List Eff :=
  (st.secGet service account, st, [.kcGet service account])

/-- Model of AsyncEntry.setPassword. -/
def setPasswordM (st : Sys) (service account secret : String) : MRes Unit :=
  (.ok (), st.secSet service account secret, [.kcSet service account])

/-- Model of AsyncEntry.deletePassword: succeeds whether or not the
entry exists. -/
def deletePasswordM (st : Sys) (service account : String) : MRes Unit :=
  (.ok (), st.secDel service account, [.kcDel service account])

/-- JS truthiness of a string-or-undefined value: falsy exactly when
undefined or the empty string. -/
def truthyOpt : Option String → Bool
  | some s => if s = "" then false else true
  | none => false

/-- A JS try-catch that swallows only ENOENT, re-raising anything
else. -/
def catchEnoent {α : Type} (body : Sys → MRes α) (handler : Sys → MRes α)
    (st : Sys) : MRes α :=
  match body st with
  | (.error .enoent, st2, tr) =>
    match handler st2 with
    | (r, st3, tr2) => (r, st3, tr ++ tr2)
  | other => other

/-- Model of getSecret (src/keychain.ts): keychain first with a JS
truthiness test, then the legacy key file, migrating its contents into
the keychain and removing the file; ENOENT on the legacy path means the
secret is absent. -/
def getSecret (service account : String) (st : Sys) : MRes (Option String) :=
  match getPasswordM st service account with
  | (v, st0, tr0) =>
    if truthyOpt v then (.ok v, st0, tr0)
    else
      match catchEnoent
        (fun st1 =>
          bindRes (readFileM st1 account) (fun d st2 =>
          bindRes (setPasswordM st2 service account d.toBytes) (fun _ st3 =>
          bindRes (rmM st3 account) (fun _ st4 =>
          (.ok (some d.toBytes), st4, [])))))
        (fun st1 => (.ok none, st1, [])) st0 with
      | (r, st5, tr5) => (r, st5, tr0 ++ tr5)

/-- Model of setSecret (src/keychain.ts): store in the keychain, then
remove a stale legacy file if one exists (ENOENT swallowed). -/
def setSecret (service account secret : String) (st : Sys) : MRes Unit :=
  bindRes (setPasswordM st service account secret) (fun _ st1 =>
    catchEnoent
      (fun st2 => bindRes (statM st2 account) (fun _ st3 => rmM st3 account))
      (fun st2 => (.ok (), st2, []))
      st1)

/-- Model of deleteSecret (src/keychain.ts). -/
def deleteSecret (service account : String) (st : Sys) : MRes Unit :=
  bindRes (deletePasswordM st service account) (fun _ st1 =>
    catchEnoent
      (fun st2 => bindRes (statM st2 account) (fun _ st3 => rmM st3 account))
      (fun st2 => (.ok (), st2, []))
      st1)

/-- The keychain service name (src/cert.ts). -/
def KEYCHAIN_SERVICE : String := "com.github.cto-af.ca"

/-- Authority argument of the KeyCert constructor: absent, the
SELF_SIGNED sentinel, or a known authority record. -/
inductive CaParam (α : Type) where
  | undef
  | selfSigned
  | known (ca : α)
deriving DecidableEq

/-- Model of the KeyCert class (src/cert.ts): certificate, optional
private-key PEM, authority reference (SELF_SIGNED kept as a marker that
resolves to the record itself), and the file locations learned on a
successful read or write. -/
inductive KeyCert where
  | mk (name : String) (key : Option String) (cert : Cert)
      (ca : CaParam KeyCert) (keyFile : Option String)
      (certFile : Option String)

def KeyCert.name : KeyCert → String
  | .mk n _ _ _ _ _ => n

def KeyCert.key : KeyCert → Option String
  | .mk _ k _ _ _ _ => k

def KeyCert.cert : KeyCert → Cert
  | .mk _ _ c _ _ _ => c

def KeyCert.ca : KeyCert → CaParam KeyCert
  | .mk _ _ _ a _ _ => a

def KeyCert.keyFile : KeyCert → Option String
  | .mk _ _ _ _ kf _ => kf

def KeyCert.certFile : KeyCert → Option String
  | .mk _ _ _ _ _ cf => cf

/-- Issuer DN string getter. -/
def KeyCert.issuer (kc : KeyCert) : String := kc.cert.issuer

/-- Subject DN string getter. -/
def KeyCert.subject (kc : KeyCert) : String := kc.cert.subject

/-- notAfter getter (milliseconds). -/
def KeyCert.notAfter (kc : KeyCert) : Int := kc.cert.notAfter

/-- notBefore getter (milliseconds). -/
def KeyCert.notBefore (kc : KeyCert) : Int := kc.cert.notBefore

/-- Serial getter. -/
def KeyCert.serial (kc : KeyCert) : Int := kc.cert.serial

/-- SAN getter. -/
def KeyCert.san (kc : KeyCert) : List GeneralName := kc.cert.san

/-- The stored authority reference with the SELF_SIGNED marker resolved
to the record itself, as the constructor assignment does. -/
def KeyCert.caResolved (kc : KeyCert) : Option KeyCert :=
  match kc.ca with
  | .undef => none
  | .selfSigned => some kc
  | .known a => some a

/-- KeyCert constructor applied to an already-built certificate object
(cannot fail).  The JS truthiness test on the key argument drops an
empty-string key. -/
def mkKeyCert (name : String) (key : Option String) (c : Cert)
    (ca : CaParam KeyCert) : KeyCert :=
  .mk name (if truthyOpt key then key else none) c ca none none

/-- KeyCert constructor applied to raw file bytes: readCertPEM throws
when the bytes are not a certificate. -/
def mkKeyCertOfFile (name : String) (key : Option String) (d : FileData)
    (ca : CaParam KeyCert) : Except Err KeyCert :=
  match d with
  | .pem c => .ok (mkKeyCert name key c ca)
  | .text _ => .error .parseError

/-- Record with the private file-location fields assigned. -/
def KeyCert.withFiles : KeyCert → Option String → Option String → KeyCert
  | .mk n k c a _ _, kf, cf => .mk n k c a kf cf

/-- Modelled from the spec: the chain accessor is absent from
src/cert.ts (only the repository test suite reads KeyCert.chain); per
spec section 3, chainPem is certificatePem concatenated with the issuing
authority certificate PEM when an authority reference exists.
Concatenation of PEM blocks is represented as the list of certificates
in order. -/
def KeyCert.chain (kc : KeyCert) : List Cert :=
  match kc.caResolved with
  | some a => [kc.cert, a.cert]
  | none => [kc.cert]

/-- Host option: a single hostname or an ordered list. -/
inductive HostArg where
  | single (h : String)
  | multi (hs : List String)
deriving DecidableEq

/-- Fully-populated common certificate options (src/types.ts). -/
structure RequiredCommonCertOptions where
  host : HostArg
  dir : String
  minRunDays : Int
  notAfterDays : Int
  force : Bool
  noKey : Bool
  temp : Bool
deriving DecidableEq

/-- Caller-supplied common certificate options, every field optional. -/
structure CommonCertOptions where
  host : Option HostArg := none
  dir : Option String := none
  minRunDays : Option Int := none
  notAfterDays : Option Int := none
  force : Option Bool := none
  noKey : Option Bool := none
  temp : Option Bool := none
deriving DecidableEq

/-- Model of select from the cto.af utils collaborator: each missing
option is filled from the defaults. -/
def select (o : CommonCertOptions) (d : RequiredCommonCertOptions) :
    RequiredCommonCertOptions :=
  { host := o.host.getD d.host
    dir := o.dir.getD d.dir
    minRunDays := o.minRunDays.getD d.minRunDays
    notAfterDays := o.notAfterDays.getD d.notAfterDays
    force := o.force.getD d.force
    noKey := o.noKey.getD d.noKey
    temp := o.temp.getD d.temp }

/-- The fixed CA subject DN (src/index.ts). -/
def CA_SUBJECT : String := "/C=US/ST=Colorado/L=Denver/O=@cto.af/CN=cto-af-Root-CA"

/-- env-paths config directory for the app. -/
def configDir : String := "/config/@cto.af/ca-nodejs"

/-- DEFAULT_CA_OPTIONS (src/index.ts). -/
def DEFAULT_CA_OPTIONS : RequiredCommonCertOptions :=
  { host := .single CA_SUBJECT
    dir := configDir
    minRunDays := 1
    notAfterDays := 365
    force := false
    noKey := false
    temp := false }

/-- DEFAULT_COMMON_CERT_OPTIONS (src/index.ts). -/
def DEFAULT_COMMON_CERT_OPTIONS : RequiredCommonCertOptions :=
  { host := .multi ["localhost", "127.0.0.1", "::1"]
    dir := ".cert"
    minRunDays := 1
    notAfterDays := 7
    force := false
    noKey := false
    temp := false }

/-- Simplified model of the filenamify collaborator: characters unsafe
in filenames are replaced by an exclamation mark (all the claims need of
it is determinism). -/
def filenamify (s : String) : String :=
  String.mk (s.data.map (fun c =>
    if c = '/' ∨ c = '\\' ∨ c = '<' ∨ c = '>' ∨ c = ':' ∨ c = '"' ∨
        c = '|' ∨ c = '?' ∨ c = '*'
    then '!' else c))

/-- Names derived for one record (src/types.ts KeyCertNames). -/
structure KeyCertNames where
  certDir : String
  keyName : String
  certName : String
deriving DecidableEq

/-- path.resolve of the working directory and dir, with a fixed cwd. -/
def resolvePath (dir : String) : String :=
  match dir.data with
  | '/' :: _ => dir
  | _ => "/cwd/" ++ dir

/-- Model of the private static KeyCert.getNames. -/
def getNames (opts : RequiredCommonCertOptions) (name : String) : KeyCertNames :=
  let fn := filenamify name
  let certDir := resolvePath opts.dir
  { certDir := certDir
    keyName := certDir ++ "/" ++ fn ++ ".key.pem"
    certName := certDir ++ "/" ++ fn ++ ".cert.pem" }

/-- Model of KeyCert.read (src/cert.ts): read the certificate file,
fetch the key from the keychain unless noKey, then construct the record;
an ENOENT anywhere in the try block yields null, every other error
propagates. -/
def KeyCert.read (opts : RequiredCommonCertOptions) (name : String)
    (ca : CaParam KeyCert) (st : Sys) : MRes (Option KeyCert) :=
  catchEnoent
    (fun st0 =>
      let names := getNames opts name
      bindRes (readFileM st0 names.certName) (fun certD st1 =>
      bindRes (if opts.noKey then (.ok none, st1, [])
               else getSecret KEYCHAIN_SERVICE names.keyName st1) (fun key st2 =>
      match mkKeyCertOfFile name key certD ca with
      | .error e => (.error e, st2, [])
      | .ok kc =>
        (.ok (some (kc.withFiles (some names.keyName) (some names.certName))),
          st2, []))))
    (fun st0 => (.ok none, st0, []))
    st

/-- Model of KeyCert.write (src/cert.ts).  The private file-location
fields are assigned before the temp check, exactly as in the source. -/
def KeyCert.write (kc : KeyCert) (opts : RequiredCommonCertOptions)
    (st : Sys) : MRes KeyCert :=
  let names := getNames opts kc.name
  let kc1 := kc.withFiles (some names.keyName) (some names.certName)
  if opts.temp then (.ok kc1, st, [])
  else
    bindRes (mkdirM st names.certDir) (fun _ st1 =>
    bindRes (match kc1.key with
             | some k =>
               if k = "" then (.ok (), st1, [])
               else setSecret KEYCHAIN_SERVICE names.keyName k st1
             | none => (.ok (), st1, [])) (fun _ st2 =>
    bindRes (writeFileM st2 names.certName (.pem kc.cert)) (fun _ st3 =>
    (.ok kc1, st3, []))))

/-- Model of KeyCert.delete (src/cert.ts): no-op under temp options,
node assert failure when the file locations were never established. -/
def KeyCert.delete (kc : KeyCert) (opts : Option RequiredCommonCertOptions)
    (st : Sys) : MRes Unit :=
  if (opts.map (fun o => o.temp)).getD false then (.ok (), st, [])
  else
    match kc.keyFile, kc.certFile with
    | some keyName, some certName =>
      bindRes (deleteSecret KEYCHAIN_SERVICE keyName st) (fun _ st1 =>
        rmM st1 certName)
    | _, _ => (.error .assertFailed, st, [])

/-- Deterministic stand-in for EC keypair generation: the private-key
PEM produced by the n-th generation. -/
def privPem (n : Nat) : String := "PRIVKEY-" ++ toString n

/-- The CertificateAuthority manager state: selected construction-time
options, CA subject, and the in-process cached pair. -/
structure Manager where
  opts : RequiredCommonCertOptions
  subject : String
  pair : Option KeyCert

/-- Model of the CertificateAuthority constructor: an array host must
have exactly one element. -/
def mkCertificateAuthority (o : CommonCertOptions) : Except Err Manager :=
  let opts := select o DEFAULT_CA_OPTIONS
  match opts.host with
  | .multi [h] => .ok { opts := opts, subject := h, pair := none }
  | .multi _ => .error .onlySingleHost
  | .single h => .ok { opts := opts, subject := h, pair := none }

/-- Model of the private CertificateAuthority.create: generate a
keypair, build the self-signed CA certificate, cache it. -/
def createPair (m : Manager) (now : Int) (st : Sys) : KeyCert × Manager × Sys :=
  let priv := privPem st.gen
  let pub := st.gen
  let st1 : Sys := { st with gen := st.gen + 1 }
  let caCert : Cert :=
    { issuer := m.subject
      subject := m.subject
      serial := now
      notBefore := zulu (now - 10000)
      notAfter := zulu (daysFromNow m.opts.notAfterDays now)
      san := []
      isCA := true
      pubKey := pub
      sigKey := priv }
  let kc := mkKeyCert m.subject (some priv) caCert .selfSigned
  (kc, { m with pair := some kc }, st1)

/-- Model of CertificateAuthority.init: return the cached pair, else
(unless forced or temp) try the on-disk record, discard it when its
remaining run time is under minRunDays, else create and write a fresh
pair.  Writing assigns the file-location fields of the same object the
cache points at. -/
def init (m : Manager) (now : Int) (st : Sys) : MRes (KeyCert × Manager) :=
  match m.pair with
  | some p => (.ok (p, m), st, [])
  | none =>
    let ca_file := filenamify m.subject
    let create : Sys → MRes (KeyCert × Manager) := fun st1 =>
      match createPair m now st1 with
      | (kc, m1, st2) =>
        bindRes (KeyCert.write kc m.opts st2) (fun kc2 st3 =>
          (.ok (kc2, { m1 with pair := some kc2 }), st3, []))
    if m.opts.force || m.opts.temp then create st
    else
      bindRes (KeyCert.read m.opts ca_file .selfSigned st) (fun pair? st1 =>
        match pair? with
        | some pair =>
          if pair.notAfter < daysFromNow m.opts.minRunDays now then create st1
          else (.ok (pair, { m with pair := some pair }), st1, [])
        | none => create st1)

/-- The primary host: first element of a host list, the host itself
otherwise.  An empty list indexes past the end in JS, so the subject
becomes the string rendering of undefined; issue rejects that case
before use. -/
def primaryHost : HostArg → String
  | .single h => h
  | .multi [] => "undefined"
  | .multi (h :: _) => h

/-- All hosts, in order. -/
def hostList : HostArg → List String
  | .single h => [h]
  | .multi hs => hs

/-- Model of CertificateAuthority.issueNew: synchronous, no filesystem
or secret-store access; only the keypair counter advances.  Requires a
cached authority unless the manager is temp, generates a keypair, and
signs an end-entity certificate with the authority key. -/
def issueNewM (m : Manager) (o : CommonCertOptions) (now : Int) (st : Sys) :
    Except Err (KeyCert × Manager) × Sys :=
  let opts := select o DEFAULT_COMMON_CERT_OPTIONS
  let host := primaryHost opts.host
  let hosts := hostList opts.host
  let caStep : Option (KeyCert × Manager × Sys) :=
    match m.pair with
    | some ca => some (ca, m, st)
    | none => if m.opts.temp then some (createPair m now st) else none
  match caStep with
  | none => (.error .notTempIssueNew, st)
  | some (ca, m1, st1) =>
    let priv := privPem st1.gen
    let pub := st1.gen
    let st2 : Sys := { st1 with gen := st1.gen + 1 }
    if truthyOpt ca.key then
      let caKey := ca.key.getD ""
      let leaf : Cert :=
        { issuer := ca.subject
          subject := "/CN=" ++ host
          serial := now
          notBefore := zulu (now - 10000)
          notAfter := zulu (daysFromNow opts.notAfterDays now)
          san := altNames hosts
          isCA := false
          pubKey := pub
          sigKey := caKey }
      (.ok (mkKeyCert host (some priv) leaf (.known ca), m1), st2)
    else (.error .keyRequired, st2)

/-- Tail of CertificateAuthority.issue: generate a new leaf through
issueNew and write it. -/
def issueRegen (m1 : Manager) (o : CommonCertOptions)
    (opts : RequiredCommonCertOptions) (now : Int) (st2 : Sys) :
    MRes (KeyCert × Manager) :=
  match issueNewM m1 o now st2 with
  | (.error e, st3) => (.error e, st3, [])
  | (.ok (kc, m2), st3) =>
    bindRes (KeyCert.write kc opts st3) (fun kc2 st4 =>
      (.ok (kc2, m2), st4, []))

/-- Model of CertificateAuthority.issue: init the authority, reject an
empty host list, then (unless forced or temp) try to reuse the on-disk
leaf through the renewal checks, falling back to generating and writing
a new one. -/
def issue (m : Manager) (o : CommonCertOptions) (now : Int) (st : Sys) :
    MRes (KeyCert × Manager) :=
  let opts := select o DEFAULT_COMMON_CERT_OPTIONS
  bindRes (init m now st) (fun caM st1 =>
    match caM with
    | (ca, m1) =>
      match hostList opts.host with
      | [] => (.error .hostsRequired, st1, [])
      | _ :: _ =>
        let host := primaryHost opts.host
        if opts.force || opts.temp then issueRegen m1 o opts now st1
        else
          bindRes (KeyCert.read opts host (.known ca) st1) (fun pair? st2 =>
            match pair? with
            | none => issueRegen m1 o opts now st2
            | some pair =>
              let oneDay := daysFromNow opts.minRunDays now
              if pair.notAfter < oneDay then issueRegen m1 o opts now st2
              else if pair.issuer ≠ ca.subject then issueRegen m1 o opts now st2
              else if pair.notBefore ≥ ca.notBefore then (.ok (pair, m1), st2, [])
              else issueRegen m1 o opts now st2))

/-- Defaults used by the delete overloads: the common defaults with
noKey switched on. -/
def deleteDefaults : RequiredCommonCertOptions :=
  { DEFAULT_COMMON_CERT_OPTIONS with noKey := true }

/-- Model of the location-options overload of CertificateAuthority
delete: select with noKey defaulted to true, read the record named by
the options, then delete it only if present (optional chaining). -/
def mgrDeleteByLocation (o : CommonCertOptions) (st : Sys) : MRes Unit :=
  let opts := select o deleteDefaults
  let host := primaryHost opts.host
  bindRes (KeyCert.read opts host .undef st) (fun kc? st1 =>
    match kc? with
    | none => (.ok (), st1, [])
    | some kc => kc.delete (some opts) st1)

/-! Association-list and state lemmas. -/

theorem alookup_aset_eq {κ ν : Type} [DecidableEq κ] (l : List (κ × ν)) (k : κ) (v : ν) :
    alookup (aset l k v) k = some v := by
  induction l with
  | nil => simp [aset, alookup]
  | cons h t ih =>
    rcases h with ⟨q, w⟩
    by_cases hq : q = k <;> simp [aset, alookup, hq, ih]

theorem alookup_aset_ne {κ ν : Type} [DecidableEq κ] (l : List (κ × ν)) (k k2 : κ) (v : ν)
    (h : k ≠ k2) : alookup (aset l k v) k2 = alookup l k2 := by
  induction l with
  | nil => simp [aset, alookup, h]
  | cons hd t ih =>
    rcases hd with ⟨q, w⟩
    by_cases hq : q = k
    · subst hq
      simp [aset, alookup, h]
    · simp [aset, alookup, hq, ih]

theorem alookup_aremove_eq {κ ν : Type} [DecidableEq κ] (l : List (κ × ν)) (k : κ) :
    alookup (aremove l k) k = none := by
  induction l with
  | nil => simp [aremove, alookup]
  | cons hd t ih =>
    rcases hd with ⟨q, w⟩
    by_cases hq : q = k <;> simp [aremove, alookup, hq, ih]

theorem alookup_aremove_ne {κ ν : Type} [DecidableEq κ] (l : List (κ × ν)) (k k2 : κ)
    (h : k ≠ k2) : alookup (aremove l k) k2 = alookup l k2 := by
  induction l with
  | nil => simp [aremove, alookup]
  | cons hd t ih =>
    rcases hd with ⟨q, w⟩
    by_cases hq : q = k
    · subst hq
      simp [aremove, alookup, h, ih]
    · simp [aremove, alookup, hq, ih]

@[simp] theorem fsGet_fsSet_eq (st : Sys) (p : String) (e : FsEntry) :
    (st.fsSet p e).fsGet p = some e := by
  simp [Sys.fsGet, Sys.fsSet, alookup_aset_eq]

@[simp] theorem fsGet_fsSet_ne (st : Sys) (p q : String) (e : FsEntry) (h : p ≠ q) :
    (st.fsSet p e).fsGet q = st.fsGet q := by
  simp [Sys.fsGet, Sys.fsSet, alookup_aset_ne _ _ _ _ h]

@[simp] theorem fsGet_fsRm_eq (st : Sys) (p : String) :
    (st.fsRm p).fsGet p = none := by
  simp [Sys.fsGet, Sys.fsRm, alookup_aremove_eq]

@[simp] theorem fsGet_fsRm_ne (st : Sys) (p q : String) (h : p ≠ q) :
    (st.fsRm p).fsGet q = st.fsGet q := by
  simp [Sys.fsGet, Sys.fsRm, alookup_aremove_ne _ _ _ h]

@[simp] theorem fsGet_secSet (st : Sys) (s a v p : String) :
    (st.secSet s a v).fsGet p = st.fsGet p := rfl

@[simp] theorem fsGet_secDel (st : Sys) (s a p : String) :
    (st.secDel s a).fsGet p = st.fsGet p := rfl

@[simp] theorem secGet_fsSet (st : Sys) (p : String) (e : FsEntry) (s a : String) :
    (st.fsSet p e).secGet s a = st.secGet s a := rfl

@[simp] theorem secGet_fsRm (st : Sys) (p s a : String) :
    (st.fsRm p).secGet s a = st.secGet s a := rfl

@[simp] theorem secGet_secSet_eq (st : Sys) (s a v : String) :
    (st.secSet s a v).secGet s a = some v := by
  simp [Sys.secGet, Sys.secSet, alookup_aset_eq]

@[simp] theorem secGet_secSet_ne (st : Sys) (s a v s2 a2 : String)
    (h : (s, a) ≠ (s2, a2)) : (st.secSet s a v).secGet s2 a2 = st.secGet s2 a2 := by
  simp [Sys.secGet, Sys.secSet, alookup_aset_ne _ _ _ _ h]

@[simp] theorem secGet_secDel_eq (st : Sys) (s a : String) :
    (st.secDel s a).secGet s a = none := by
  simp [Sys.secGet, Sys.secDel, alookup_aremove_eq]

@[simp] theorem gen_fsSet (st : Sys) (p : String) (e : FsEntry) :
    (st.fsSet p e).gen = st.gen := rfl

@[simp] theorem gen_fsRm (st : Sys) (p : String) : (st.fsRm p).gen = st.gen := rfl

@[simp] theorem gen_secSet (st : Sys) (s a v : String) :
    (st.secSet s a v).gen = st.gen := rfl

@[simp] theorem gen_secDel (st : Sys) (s a : String) :
    (st.secDel s a).gen = st.gen := rfl

/-! KeyCert projection lemmas. -/

@[simp] theorem withFiles_name (kc : KeyCert) (kf cf : Option String) :
    (kc.withFiles kf cf).name = kc.name := by
  cases kc; rfl

@[simp] theorem withFiles_key (kc : KeyCert) (kf cf : Option String) :
    (kc.withFiles kf cf).key = kc.key := by
  cases kc; rfl

@[simp] theorem withFiles_cert (kc : KeyCert) (kf cf : Option String) :
    (kc.withFiles kf cf).cert = kc.cert := by
  cases kc; rfl

@[simp] theorem withFiles_ca (kc : KeyCert) (kf cf : Option String) :
    (kc.withFiles kf cf).ca = kc.ca := by
  cases kc; rfl

@[simp] theorem withFiles_keyFile (kc : KeyCert) (kf cf : Option String) :
    (kc.withFiles kf cf).keyFile = kf := by
  cases kc; rfl

@[simp] theorem withFiles_certFile (kc : KeyCert) (kf cf : Option String) :
    (kc.withFiles kf cf).certFile = cf := by
  cases kc; rfl

@[simp] theorem mkKeyCert_name (n : String) (k : Option String) (c : Cert)
    (a : CaParam KeyCert) : (mkKeyCert n k c a).name = n := rfl

@[simp] theorem mkKeyCert_cert (n : String) (k : Option String) (c : Cert)
    (a : CaParam KeyCert) : (mkKeyCert n k c a).cert = c := rfl

@[simp] theorem mkKeyCert_ca (n : String) (k : Option String) (c : Cert)
    (a : CaParam KeyCert) : (mkKeyCert n k c a).ca = a := rfl

@[simp] theorem mkKeyCert_key (n : String) (k : Option String) (c : Cert)
    (a : CaParam KeyCert) : (mkKeyCert n k c a).key = if truthyOpt k then k else none := rfl

theorem keyName_ne_certName (opts : RequiredCommonCertOptions) (n : String) :
    (getNames opts n).keyName ≠ (getNames opts n).certName := by
  intro h
  have hl := congrArg String.length h
  simp [getNames, String.length_append] at hl
  revert hl
  decide

/-! Behaviour of the secret store operations. -/

theorem getSecret_hit (svc acct : String) (st : Sys) (v : String)
    (hv : st.secGet svc acct = some v) (hne : v ≠ "") :
    getSecret svc acct st = (.ok (some v), st, [.kcGet svc acct]) := by
  simp [getSecret, getPasswordM, hv, truthyOpt, hne]

theorem getSecret_missing (svc acct : String) (st : Sys)
    (hv : truthyOpt (st.secGet svc acct) = false)
    (hf : st.fsGet acct = none) :
    getSecret svc acct st = (.ok none, st, [.kcGet svc acct, .fsRead acct]) := by
  simp [getSecret, getPasswordM, hv, catchEnoent, bindRes, readFileM, hf]

theorem getSecret_migrate (svc acct : String) (st : Sys) (d : FileData)
    (hv : truthyOpt (st.secGet svc acct) = false)
    (hf : st.fsGet acct = some (.file d)) :
    getSecret svc acct st =
      (.ok (some d.toBytes), (st.secSet svc acct d.toBytes).fsRm acct,
       [.kcGet svc acct, .fsRead acct, .kcSet svc acct, .fsRm acct]) := by
  simp [getSecret, getPasswordM, hv, catchEnoent, bindRes, readFileM, hf,
    setPasswordM, rmM]

theorem getSecret_dirfail (svc acct : String) (st : Sys)
    (hv : truthyOpt (st.secGet svc acct) = false)
    (hf : st.fsGet acct = some .dir) :
    getSecret svc acct st = (.error .eisdir, st, [.kcGet svc acct, .fsRead acct]) := by
  simp [getSecret, getPasswordM, hv, catchEnoent, bindRes, readFileM, hf]

theorem setSecret_nolegacy (svc acct v : String) (st : Sys)
    (hf : st.fsGet acct = none) :
    setSecret svc acct v st =
      (.ok (), st.secSet svc acct v, [.kcSet svc acct, .fsStat acct]) := by
  simp [setSecret, setPasswordM, catchEnoent, bindRes, statM, hf]

theorem setSecret_legacyFile (svc acct v : String) (st : Sys) (d : FileData)
    (hf : st.fsGet acct = some (.file d)) :
    setSecret svc acct v st =
      (.ok (), (st.secSet svc acct v).fsRm acct,
       [.kcSet svc acct, .fsStat acct, .fsRm acct]) := by
  simp [setSecret, setPasswordM, catchEnoent, bindRes, statM, rmM, hf]

theorem setSecret_legacyDir (svc acct v : String) (st : Sys)
    (hf : st.fsGet acct = some .dir) :
    setSecret svc acct v st =
      (.error .eisdir, st.secSet svc acct v,
       [.kcSet svc acct, .fsStat acct, .fsRm acct]) := by
  simp [setSecret, setPasswordM, catchEnoent, bindRes, statM, rmM, hf]

theorem truthyOpt_true {o : Option String} (h : truthyOpt o = true) :
    ∃ s, o = some s ∧ s ≠ "" := by
  rcases o with _ | s
  · simp [truthyOpt] at h
  · by_cases hs : s = ""
    · simp [truthyOpt, hs] at h
    · exact ⟨s, rfl, hs⟩

/-! Behaviour of KeyCert.read and KeyCert.write. -/

theorem read_noCert (opts : RequiredCommonCertOptions) (name : String)
    (ca : CaParam KeyCert) (st : Sys)
    (hf : st.fsGet (getNames opts name).certName = none) :
    KeyCert.read opts name ca st =
      (.ok none, st, [.fsRead (getNames opts name).certName]) := by
  simp [KeyCert.read, catchEnoent, bindRes, readFileM, hf]

theorem read_certDir (opts : RequiredCommonCertOptions) (name : String)
    (ca : CaParam KeyCert) (st : Sys)
    (hf : st.fsGet (getNames opts name).certName = some .dir) :
    KeyCert.read opts name ca st =
      (.error .eisdir, st, [.fsRead (getNames opts name).certName]) := by
  simp [KeyCert.read, catchEnoent, bindRes, readFileM, hf]

theorem read_pem_noKey (opts : RequiredCommonCertOptions) (name : String)
    (ca : CaParam KeyCert) (st : Sys) (c : Cert)
    (hnk : opts.noKey = true)
    (hf : st.fsGet (getNames opts name).certName = some (.file (.pem c))) :
    KeyCert.read opts name ca st =
      (.ok (some ((mkKeyCert name none c ca).withFiles
          (some (getNames opts name).keyName) (some (getNames opts name).certName))),
       st, [.fsRead (getNames opts name).certName]) := by
  simp [KeyCert.read, catchEnoent, bindRes, readFileM, hf, hnk, mkKeyCertOfFile]

theorem read_pem_key (opts : RequiredCommonCertOptions) (name : String)
    (ca : CaParam KeyCert) (st : Sys) (c : Cert) (v : Option String)
    (st2 : Sys) (tr2 : List Eff)
    (hnk : opts.noKey = false)
    (hf : st.fsGet (getNames opts name).certName = some (.file (.pem c)))
    (hg : getSecret KEYCHAIN_SERVICE (getNames opts name).keyName st =
      (.ok v, st2, tr2)) :
    KeyCert.read opts name ca st =
      (.ok (some ((mkKeyCert name v c ca).withFiles
          (some (getNames opts name).keyName) (some (getNames opts name).certName))),
       st2, .fsRead (getNames opts name).certName :: tr2) := by
  simp [KeyCert.read, catchEnoent, bindRes, readFileM, hf, hnk, hg, mkKeyCertOfFile]

theorem read_junk_key (opts : RequiredCommonCertOptions) (name : String)
    (ca : CaParam KeyCert) (st : Sys) (s : String) (v : Option String)
    (st2 : Sys) (tr2 : List Eff)
    (hnk : opts.noKey = false)
    (hf : st.fsGet (getNames opts name).certName = some (.file (.text s)))
    (hg : getSecret KEYCHAIN_SERVICE (getNames opts name).keyName st =
      (.ok v, st2, tr2)) :
    KeyCert.read opts name ca st =
      (.error .parseError, st2, .fsRead (getNames opts name).certName :: tr2) := by
  simp [KeyCert.read, catchEnoent, bindRes, readFileM, hf, hnk, hg, mkKeyCertOfFile]

theorem read_junk_noKey (opts : RequiredCommonCertOptions) (name : String)
    (ca : CaParam KeyCert) (st : Sys) (s : String)
    (hnk : opts.noKey = true)
    (hf : st.fsGet (getNames opts name).certName = some (.file (.text s))) :
    KeyCert.read opts name ca st =
      (.error .parseError, st, [.fsRead (getNames opts name).certName]) := by
  simp [KeyCert.read, catchEnoent, bindRes, readFileM, hf, hnk, mkKeyCertOfFile]

theorem read_keyFail (opts : RequiredCommonCertOptions) (name : String)
    (ca : CaParam KeyCert) (st : Sys) (d : FileData) (e : Err)
    (st2 : Sys) (tr2 : List Eff)
    (hnk : opts.noKey = false)
    (hf : st.fsGet (getNames opts name).certName = some (.file d))
    (hg : getSecret KEYCHAIN_SERVICE (getNames opts name).keyName st =
      (.error e, st2, tr2))
    (he : e ≠ .enoent) :
    KeyCert.read opts name ca st =
      (.error e, st2, .fsRead (getNames opts name).certName :: tr2) := by
  cases e <;>
    simp [KeyCert.read, catchEnoent, bindRes, readFileM, hf, hnk, hg] <;>
    simp at he

theorem write_temp_eq (kc : KeyCert) (opts : RequiredCommonCertOptions) (st : Sys)
    (htemp : opts.temp = true) :
    KeyCert.write kc opts st =
      (.ok (kc.withFiles (some (getNames opts kc.name).keyName)
        (some (getNames opts kc.name).certName)), st, []) := by
  simp [KeyCert.write, htemp]

theorem write_keyed_eq (kc : KeyCert) (opts : RequiredCommonCertOptions) (st : Sys)
    (k : String) (st2 : Sys) (tr2 : List Eff)
    (htemp : opts.temp = false)
    (hkey : kc.key = some k) (hk : k ≠ "")
    (hsec : setSecret KEYCHAIN_SERVICE (getNames opts kc.name).keyName k st =
      (.ok (), st2, tr2))
    (hcert : st2.fsGet (getNames opts kc.name).certName ≠ some .dir) :
    KeyCert.write kc opts st =
      (.ok (kc.withFiles (some (getNames opts kc.name).keyName)
        (some (getNames opts kc.name).certName)),
       st2.fsSet (getNames opts kc.name).certName (.file (.pem kc.cert)),
       .fsMkdir (getNames opts kc.name).certDir ::
         (tr2 ++ [.fsWrite (getNames opts kc.name).certName])) := by
  have hw : writeFileM st2 (getNames opts kc.name).certName (.pem kc.cert) =
      (.ok (), st2.fsSet (getNames opts kc.name).certName (.file (.pem kc.cert)),
       [.fsWrite (getNames opts kc.name).certName]) := by
    rcases hc : st2.fsGet (getNames opts kc.name).certName with _ | e
    · simp [writeFileM, hc]
    · cases e with
      | file d => simp [writeFileM, hc]
      | dir => exact absurd hc hcert
  simp [KeyCert.write, htemp, mkdirM, bindRes, hkey, hk, hsec, hw]

/-! Generation-counter preservation. -/

theorem gen_bindRes {α β : Type} (x : MRes α) (f : α → Sys → MRes β) (g : Nat)
    (hx : x.2.1.gen = g) (hf : ∀ a st2, (f a st2).2.1.gen = st2.gen) :
    (bindRes x f).2.1.gen = g := by
  rcases x with ⟨r, st, tr⟩
  cases r with
  | ok a =>
    rcases hfa : f a st with ⟨r2, st2, tr2⟩
    have := hf a st
    rw [hfa] at this
    simp [bindRes, hfa]
    simp at hx
    rw [this, hx]
  | error e =>
    simpa [bindRes] using hx

theorem gen_catchEnoent {α : Type} (body handler : Sys → MRes α) (st : Sys)
    (hb : (body st).2.1.gen = st.gen)
    (hh : ∀ st2, (handler st2).2.1.gen = st2.gen) :
    (catchEnoent body handler st).2.1.gen = st.gen := by
  rcases hbs : body st with ⟨r, st1, tr⟩
  rw [hbs] at hb
  simp at hb
  rcases r with e | a
  · cases e <;> simp [catchEnoent, hbs] <;>
      first
      | (rcases hhs : handler st1 with ⟨r2, st3, tr3⟩
         have := hh st1
         rw [hhs] at this
         simp at this
         simp [hhs, this, hb])
      | exact hb
  · simpa [catchEnoent, hbs] using hb

theorem gen_getSecret (svc acct : String) (st : Sys) :
    (getSecret svc acct st).2.1.gen = st.gen := by
  cases hv : truthyOpt (st.secGet svc acct) with
  | true =>
    rcases truthyOpt_true hv with ⟨v, hsv, hne⟩
    simp [getSecret_hit svc acct st v hsv hne]
  | false =>
    rcases hf : st.fsGet acct with _ | e
    · simp [getSecret_missing svc acct st hv hf]
    · cases e with
      | file d => simp [getSecret_migrate svc acct st d hv hf]
      | dir => simp [getSecret_dirfail svc acct st hv hf]

theorem gen_setSecret (svc acct v : String) (st : Sys) :
    (setSecret svc acct v st).2.1.gen = st.gen := by
  rcases hf : st.fsGet acct with _ | e
  · simp [setSecret_nolegacy svc acct v st hf]
  · cases e with
    | file d => simp [setSecret_legacyFile svc acct v st d hf]
    | dir => simp [setSecret_legacyDir svc acct v st hf]

theorem gen_read (opts : RequiredCommonCertOptions) (name : String)
    (ca : CaParam KeyCert) (st : Sys) :
    ((KeyCert.read opts name ca st)).2.1.gen = st.gen := by
  unfold KeyCert.read
  apply gen_catchEnoent
  · apply gen_bindRes _ _ _ (by simp [readFileM]; rcases hf : st.fsGet (getNames opts name).certName with _ | e <;> [skip; cases e] <;> simp [readFileM, hf])
    intro d st1
    apply gen_bindRes
    · by_cases hnk : opts.noKey
      · simp [hnk]
      · simp [hnk, gen_getSecret]
    · intro v st2
      rcases hm : mkKeyCertOfFile name v d ca with e | kc <;> simp [hm]
  · intro st2
    simp

theorem gen_write (kc : KeyCert) (opts : RequiredCommonCertOptions) (st : Sys) :
    ((KeyCert.write kc opts st)).2.1.gen = st.gen := by
  unfold KeyCert.write
  by_cases ht : opts.temp
  · simp [ht]
  · simp only [ht, if_false, Bool.false_eq_true]
    apply gen_bindRes _ _ _ (by simp [mkdirM])
    intro a st1
    apply gen_bindRes
    · rcases hkey : kc.key with _ | k
      · simp [hkey]
      · by_cases hk : k = ""
        · simp [hkey, hk]
        · simp [hkey, hk, gen_setSecret]
    · intro b st2
      apply gen_bindRes
      · rcases hc : st2.fsGet (getNames opts kc.name).certName with _ | e
        · simp [writeFileM, hc]
        · cases e <;> simp [writeFileM, hc]
      · intro u st3
        simp

theorem gen_issueNewM (m : Manager) (o : CommonCertOptions) (now : Int) (st : Sys)
    (ca : KeyCert) (hpair : m.pair = some ca) :
    (issueNewM m o now st).2.gen = st.gen + 1 := by
  by_cases hk : truthyOpt ca.key <;> simp [issueNewM, hpair, hk]

theorem gen_issueRegen (m1 : Manager) (o : CommonCertOptions)
    (opts : RequiredCommonCertOptions) (now : Int) (st2 : Sys)
    (ca : KeyCert) (hpair : m1.pair = some ca) :
    (issueRegen m1 o opts now st2).2.1.gen = st2.gen + 1 := by
  unfold issueRegen
  rcases hi : issueNewM m1 o now st2 with ⟨r, st3⟩
  have hg : st3.gen = st2.gen + 1 := by
    have := gen_issueNewM m1 o now st2 ca hpair
    rw [hi] at this
    exact this
  rcases r with e | ⟨kc, m2⟩
  · simpa using hg
  · simp only
    apply gen_bindRes _ _ _ (by simpa [gen_write] using hg)
    intro a st4
    simp

/-! Concrete fixtures used by witnesses and counterexamples. -/

/-- A small concrete certificate. -/
def certA : Cert :=
  { issuer := "I", subject := "S", serial := 1, notBefore := 0, notAfter := 5,
    san := [], isCA := false, pubKey := 0, sigKey := "sk" }

/-- The empty world. -/
def stEmpty : Sys := ⟨[], [], 0⟩

/-- Empty caller options. -/
def emptyOpts : CommonCertOptions := {}

/-- C10: For every service and account whose secure-store entry holds
the empty string, getSecret treats the secret as absent: the JS
truthiness test fails, the legacy-file path is consulted (the fsRead
effect in the trace), and when no legacy file exists at the account path
the call returns undefined, not the empty string. -/
theorem c10_getSecret_empty_entry_absent (service account : String) (st : Sys)
    (hsec : st.secGet service account = some "")
    (hfile : st.fsGet account = none) :
    getSecret service account st =
      (.ok none, st, [.kcGet service account, .fsRead account]) := by
  have hv : truthyOpt (st.secGet service account) = false := by
    simp [hsec, truthyOpt]
  exact getSecret_missing service account st hv hfile

/-- Witness for C10 at a concrete store holding the empty string. -/
theorem c10_witness :
    (⟨[], [(("svc", "/k"), "")], 0⟩ : Sys).secGet "svc" "/k" = some "" ∧
    (⟨[], [(("svc", "/k"), "")], 0⟩ : Sys).fsGet "/k" = none ∧
    getSecret "svc" "/k" ⟨[], [(("svc", "/k"), "")], 0⟩ =
      (.ok none, ⟨[], [(("svc", "/k"), "")], 0⟩,
       [.kcGet "svc" "/k", .fsRead "/k"]) :=
  ⟨by decide, by decide,
    c10_getSecret_empty_entry_absent "svc" "/k" _ (by decide) (by decide)⟩

/-- C4 (amended): for every secret present only as a non-empty legacy
file at the account path, one getSecret call returns the file contents,
writes them into the secure store, and removes the legacy file; a second
call returns the same value from the secure store, touching neither the
filesystem nor the store contents (its trace is exactly the single
keychain read).  The amendment excludes the empty-string secret, for
which the second call returns undefined (see the counterexample). -/
theorem c4_secret_migration (service account : String) (st : Sys) (d : FileData)
    (hsec : st.secGet service account = none)
    (hfile : st.fsGet account = some (.file d))
    (hne : d.toBytes ≠ "") :
    getSecret service account st =
      (.ok (some d.toBytes), (st.secSet service account d.toBytes).fsRm account,
       [.kcGet service account, .fsRead account, .kcSet service account,
        .fsRm account]) ∧
    ((st.secSet service account d.toBytes).fsRm account).secGet service account =
      some d.toBytes ∧
    ((st.secSet service account d.toBytes).fsRm account).fsGet account = none ∧
    getSecret service account ((st.secSet service account d.toBytes).fsRm account) =
      (.ok (some d.toBytes), (st.secSet service account d.toBytes).fsRm account,
       [.kcGet service account]) := by
  have hv : truthyOpt (st.secGet service account) = false := by
    simp [hsec, truthyOpt]
  have h2 : ((st.secSet service account d.toBytes).fsRm account).secGet
      service account = some d.toBytes := by simp
  exact ⟨getSecret_migrate service account st d hv hfile, h2, by simp,
    getSecret_hit _ _ _ _ h2 hne⟩

/-- Witness for C4 with a concrete legacy key file. -/
theorem c4_witness :
    (⟨[("/k", .file (.text "KEY"))], [], 0⟩ : Sys).secGet "svc" "/k" = none ∧
    (⟨[("/k", .file (.text "KEY"))], [], 0⟩ : Sys).fsGet "/k" =
      some (.file (.text "KEY")) ∧
    FileData.toBytes (.text "KEY") ≠ "" ∧
    getSecret "svc" "/k"
        (((⟨[("/k", .file (.text "KEY"))], [], 0⟩ : Sys).secSet "svc" "/k"
          (FileData.toBytes (.text "KEY"))).fsRm "/k") =
      (.ok (some (FileData.toBytes (.text "KEY"))),
       ((⟨[("/k", .file (.text "KEY"))], [], 0⟩ : Sys).secSet "svc" "/k"
          (FileData.toBytes (.text "KEY"))).fsRm "/k",
       [.kcGet "svc" "/k"]) :=
  ⟨by decide, by decide, by decide,
    (c4_secret_migration "svc" "/k" _ _ (by decide) (by decide) (by decide)).2.2.2⟩

/-- Counterexample for C4 exactly as stated: with an empty legacy key
file the first call migrates (stores the empty string, removes the
file) and returns the empty string, but the second call returns
undefined rather than the same value. -/
theorem c4_empty_file_cex :
    (getSecret "svc" "/k" ⟨[("/k", .file (.text ""))], [], 0⟩).1 =
      .ok (some "") ∧
    (getSecret "svc" "/k"
        ((getSecret "svc" "/k" ⟨[("/k", .file (.text ""))], [], 0⟩).2.1)).1 =
      .ok none := by
  constructor <;> decide

/-- C9: calling the location-options overload of the manager delete for
a host whose certificate file does not exist completes without error,
leaves the whole world unchanged, and touches nothing but the one
certificate-file read (the missing record is silently skipped). -/
theorem c9_delete_missing_noop (o : CommonCertOptions) (st : Sys)
    (hfile : st.fsGet (getNames (select o deleteDefaults)
        (primaryHost (select o deleteDefaults).host)).certName = none) :
    mgrDeleteByLocation o st =
      (.ok (), st, [.fsRead (getNames (select o deleteDefaults)
        (primaryHost (select o deleteDefaults).host)).certName]) := by
  have h := read_noCert (select o deleteDefaults)
    (primaryHost (select o deleteDefaults).host) .undef st hfile
  simp [mgrDeleteByLocation, bindRes, h]

/-- Witness for C9 on the empty filesystem with default options. -/
theorem c9_witness :
    stEmpty.fsGet (getNames (select emptyOpts deleteDefaults)
        (primaryHost (select emptyOpts deleteDefaults).host)).certName = none ∧
    mgrDeleteByLocation emptyOpts stEmpty =
      (.ok (), stEmpty, [.fsRead (getNames (select emptyOpts deleteDefaults)
        (primaryHost (select emptyOpts deleteDefaults).host)).certName]) :=
  ⟨by decide, c9_delete_missing_noop emptyOpts stEmpty (by decide)⟩

/-- C8 (amended): writing a record under temporary options performs no
filesystem or secret-store operation (state unchanged, empty trace) and
leaves name, key, certificate and authority unchanged, but it does
assign the certificate-file and key-account fields to the resolved
paths, because the source assigns them before the temp check. -/
theorem c8_write_temp (kc : KeyCert) (opts : RequiredCommonCertOptions) (st : Sys)
    (htemp : opts.temp = true) :
    KeyCert.write kc opts st =
      (.ok (kc.withFiles (some (getNames opts kc.name).keyName)
        (some (getNames opts kc.name).certName)), st, []) :=
  write_temp_eq kc opts st htemp

/-- Witness for C8 on a concrete temporary record. -/
theorem c8_witness :
    ({ DEFAULT_COMMON_CERT_OPTIONS with temp := true } :
      RequiredCommonCertOptions).temp = true ∧
    KeyCert.write (.mk "h" none certA .undef none none)
        { DEFAULT_COMMON_CERT_OPTIONS with temp := true } stEmpty =
      (.ok ((KeyCert.mk "h" none certA .undef none none).withFiles
        (some (getNames { DEFAULT_COMMON_CERT_OPTIONS with temp := true } "h").keyName)
        (some (getNames { DEFAULT_COMMON_CERT_OPTIONS with temp := true } "h").certName)),
       stEmpty, []) :=
  ⟨rfl, c8_write_temp (.mk "h" none certA .undef none none) _ stEmpty rfl⟩

/-- Counterexample for C8 as stated: after a temporary write the
certificate-file field of the returned record is populated, so the
record is not left unchanged with undefined location fields. -/
theorem c8_cex :
    ((KeyCert.write (.mk "h" none certA .undef none none)
        { DEFAULT_COMMON_CERT_OPTIONS with temp := true } stEmpty).1.map
      KeyCert.certFile) ≠ .ok none := by
  decide

/-- C6: KeyCert.read yields null (not an error) exactly for a missing
certificate file; junk certificate bytes propagate a parse error whether
or not the key is fetched; and the modelled non-ENOENT I/O failures (a
directory found where a file is expected, at the certificate path or at
the legacy key path during the key fetch) propagate as errors rather
than being treated as absence. -/
theorem c6_read_absent_vs_errors (opts : RequiredCommonCertOptions)
    (name : String) (ca : CaParam KeyCert) (st : Sys) :
    (st.fsGet (getNames opts name).certName = none →
      KeyCert.read opts name ca st =
        (.ok none, st, [.fsRead (getNames opts name).certName])) ∧
    (∀ s v st2 tr2, opts.noKey = false →
      st.fsGet (getNames opts name).certName = some (.file (.text s)) →
      getSecret KEYCHAIN_SERVICE (getNames opts name).keyName st =
        (.ok v, st2, tr2) →
      (KeyCert.read opts name ca st).1 = .error .parseError) ∧
    (∀ s, opts.noKey = true →
      st.fsGet (getNames opts name).certName = some (.file (.text s)) →
      (KeyCert.read opts name ca st).1 = .error .parseError) ∧
    (st.fsGet (getNames opts name).certName = some .dir →
      (KeyCert.read opts name ca st).1 = .error .eisdir) ∧
    (∀ c, opts.noKey = false →
      st.fsGet (getNames opts name).certName = some (.file (.pem c)) →
      truthyOpt (st.secGet KEYCHAIN_SERVICE (getNames opts name).keyName) = false →
      st.fsGet (getNames opts name).keyName = some .dir →
      (KeyCert.read opts name ca st).1 = .error .eisdir) := by
  refine ⟨fun hf => read_noCert opts name ca st hf,
    fun s v st2 tr2 hnk hf hg => ?_,
    fun s hnk hf => ?_,
    fun hf => ?_,
    fun c hnk hf hv hk => ?_⟩
  · rw [read_junk_key opts name ca st s v st2 tr2 hnk hf hg]
  · rw [read_junk_noKey opts name ca st s hnk hf]
  · rw [read_certDir opts name ca st hf]
  · have hg := getSecret_dirfail KEYCHAIN_SERVICE (getNames opts name).keyName st hv hk
    rw [read_keyFail opts name ca st (.pem c) .eisdir st
      [.kcGet KEYCHAIN_SERVICE (getNames opts name).keyName,
       .fsRead (getNames opts name).keyName] hnk hf hg (by simp)]

/-- Witness for C6: every branch exercised on a concrete state. -/
theorem c6_witness :
    KeyCert.read DEFAULT_COMMON_CERT_OPTIONS "h" .undef stEmpty =
      (.ok none, stEmpty,
       [.fsRead (getNames DEFAULT_COMMON_CERT_OPTIONS "h").certName]) ∧
    (KeyCert.read DEFAULT_COMMON_CERT_OPTIONS "h" .undef
      (stEmpty.fsSet (getNames DEFAULT_COMMON_CERT_OPTIONS "h").certName
        (.file (.text "JUNK")))).1 = .error .parseError ∧
    (KeyCert.read deleteDefaults "h" .undef
      (stEmpty.fsSet (getNames deleteDefaults "h").certName
        (.file (.text "JUNK")))).1 = .error .parseError ∧
    (KeyCert.read DEFAULT_COMMON_CERT_OPTIONS "h" .undef
      (stEmpty.fsSet (getNames DEFAULT_COMMON_CERT_OPTIONS "h").certName
        .dir)).1 = .error .eisdir ∧
    (KeyCert.read DEFAULT_COMMON_CERT_OPTIONS "h" .undef
      ((stEmpty.fsSet (getNames DEFAULT_COMMON_CERT_OPTIONS "h").certName
        (.file (.pem certA))).fsSet
          (getNames DEFAULT_COMMON_CERT_OPTIONS "h").keyName .dir)).1 =
      .error .eisdir := by
  have hne := keyName_ne_certName DEFAULT_COMMON_CERT_OPTIONS "h"
  have hg : getSecret KEYCHAIN_SERVICE
      (getNames DEFAULT_COMMON_CERT_OPTIONS "h").keyName
      (stEmpty.fsSet (getNames DEFAULT_COMMON_CERT_OPTIONS "h").certName
        (.file (.text "JUNK"))) =
      (.ok none,
       stEmpty.fsSet (getNames DEFAULT_COMMON_CERT_OPTIONS "h").certName
         (.file (.text "JUNK")),
       [.kcGet KEYCHAIN_SERVICE (getNames DEFAULT_COMMON_CERT_OPTIONS "h").keyName,
        .fsRead (getNames DEFAULT_COMMON_CERT_OPTIONS "h").keyName]) := by
    refine getSecret_missing _ _ _ ?_ ?_
    · simp [stEmpty, Sys.secGet, alookup, truthyOpt]
    · rw [fsGet_fsSet_ne _ _ _ _ (Ne.symm hne)]
      rfl
  refine ⟨(c6_read_absent_vs_errors DEFAULT_COMMON_CERT_OPTIONS "h" .undef stEmpty).1 rfl,
    (c6_read_absent_vs_errors DEFAULT_COMMON_CERT_OPTIONS "h" .undef _).2.1
      "JUNK" none _ _ rfl (by simp) hg,
    (c6_read_absent_vs_errors deleteDefaults "h" .undef _).2.2.1
      "JUNK" rfl (by simp),
    (c6_read_absent_vs_errors DEFAULT_COMMON_CERT_OPTIONS "h" .undef _).2.2.2.1
      (by simp),
    (c6_read_absent_vs_errors DEFAULT_COMMON_CERT_OPTIONS "h" .undef _).2.2.2.2
      certA rfl ?_ ?_ (by simp)⟩
  · rw [fsGet_fsSet_ne _ _ _ _ hne]
    simp
  · simp [stEmpty, Sys.secGet, alookup, truthyOpt]

/-! The issue flow on a manager with a cached authority. -/

/-- Prepend an already-recorded trace to a result. -/
def addTrace {α : Type} (tr : List Eff) (x : MRes α) : MRes α :=
  (x.1, x.2.1, tr ++ x.2.2)

/-- The file names issue resolves for the primary host of the given
caller options. -/
def issuePaths (o : CommonCertOptions) : KeyCertNames :=
  getNames (select o DEFAULT_COMMON_CERT_OPTIONS)
    (primaryHost (select o DEFAULT_COMMON_CERT_OPTIONS).host)

/-- The error of a result, if any (used to compare results without
comparing record payloads). -/
def errOf {α : Type} : Except Err α → Option Err
  | .error e => some e
  | .ok _ => none

theorem issue_cached_none (m : Manager) (ca : KeyCert) (o : CommonCertOptions)
    (now : Int) (st : Sys) (h0 : String) (hs : List String)
    (st2 : Sys) (tr2 : List Eff)
    (hpair : m.pair = some ca)
    (hforce : (select o DEFAULT_COMMON_CERT_OPTIONS).force = false)
    (htemp : (select o DEFAULT_COMMON_CERT_OPTIONS).temp = false)
    (hh : hostList (select o DEFAULT_COMMON_CERT_OPTIONS).host = h0 :: hs)
    (hread : KeyCert.read (select o DEFAULT_COMMON_CERT_OPTIONS)
        (primaryHost (select o DEFAULT_COMMON_CERT_OPTIONS).host)
        (.known ca) st = (.ok none, st2, tr2)) :
    issue m o now st =
      addTrace tr2 (issueRegen m o (select o DEFAULT_COMMON_CERT_OPTIONS) now st2) := by
  simp [issue, init, hpair, bindRes, hh, hforce, htemp, hread, addTrace]

theorem issue_cached_reuse (m : Manager) (ca : KeyCert) (o : CommonCertOptions)
    (now : Int) (st : Sys) (h0 : String) (hs : List String)
    (pair : KeyCert) (st2 : Sys) (tr2 : List Eff)
    (hpair : m.pair = some ca)
    (hforce : (select o DEFAULT_COMMON_CERT_OPTIONS).force = false)
    (htemp : (select o DEFAULT_COMMON_CERT_OPTIONS).temp = false)
    (hh : hostList (select o DEFAULT_COMMON_CERT_OPTIONS).host = h0 :: hs)
    (hread : KeyCert.read (select o DEFAULT_COMMON_CERT_OPTIONS)
        (primaryHost (select o DEFAULT_COMMON_CERT_OPTIONS).host)
        (.known ca) st = (.ok (some pair), st2, tr2))
    (h1 : ¬ pair.notAfter <
      daysFromNow (select o DEFAULT_COMMON_CERT_OPTIONS).minRunDays now)
    (h2 : pair.issuer = ca.subject)
    (h3 : pair.notBefore ≥ ca.notBefore) :
    issue m o now st = (.ok (pair, m), st2, tr2) := by
  simp [issue, init, hpair, bindRes, hh, hforce, htemp, hread, h1, h2, h3]

theorem issue_cached_regen (m : Manager) (ca : KeyCert) (o : CommonCertOptions)
    (now : Int) (st : Sys) (h0 : String) (hs : List String)
    (pair : KeyCert) (st2 : Sys) (tr2 : List Eff)
    (hpair : m.pair = some ca)
    (hforce : (select o DEFAULT_COMMON_CERT_OPTIONS).force = false)
    (htemp : (select o DEFAULT_COMMON_CERT_OPTIONS).temp = false)
    (hh : hostList (select o DEFAULT_COMMON_CERT_OPTIONS).host = h0 :: hs)
    (hread : KeyCert.read (select o DEFAULT_COMMON_CERT_OPTIONS)
        (primaryHost (select o DEFAULT_COMMON_CERT_OPTIONS).host)
        (.known ca) st = (.ok (some pair), st2, tr2))
    (hfail : pair.notAfter <
        daysFromNow (select o DEFAULT_COMMON_CERT_OPTIONS).minRunDays now ∨
      pair.issuer ≠ ca.subject ∨ ¬ pair.notBefore ≥ ca.notBefore) :
    issue m o now st =
      addTrace tr2 (issueRegen m o (select o DEFAULT_COMMON_CERT_OPTIONS) now st2) := by
  by_cases h1 : pair.notAfter <
      daysFromNow (select o DEFAULT_COMMON_CERT_OPTIONS).minRunDays now
  · simp [issue, init, hpair, bindRes, hh, hforce, htemp, hread, h1, addTrace]
  · by_cases h2 : pair.issuer = ca.subject
    · have h3 : ¬ pair.notBefore ≥ ca.notBefore := by
        rcases hfail with h | h | h
        · exact absurd h h1
        · exact absurd h2 h
        · exact h
      simp [issue, init, hpair, bindRes, hh, hforce, htemp, hread, h1, h2, h3,
        addTrace]
    · simp [issue, init, hpair, bindRes, hh, hforce, htemp, hread, h1, h2,
        addTrace]

/-! Fixtures for the issue-level claims. -/

/-- A concrete CA certificate. -/
def certCA : Cert :=
  { issuer := "S", subject := "S", serial := 0, notBefore := 0,
    notAfter := 10000000000000, san := [], isCA := true, pubKey := 0,
    sigKey := "CAKEY" }

/-- A concrete cached CA record. -/
def caA : KeyCert := mkKeyCert "S" (some "CAKEY") certCA .selfSigned

/-- A manager holding the cached CA record. -/
def mgrCached : Manager :=
  { opts := DEFAULT_CA_OPTIONS, subject := "S", pair := some caA }

/-- A concrete leaf certificate satisfying the reuse conditions against
certCA at now = 0 with one minimum run day. -/
def certL : Cert :=
  { issuer := "S", subject := "/CN=localhost", serial := 2, notBefore := 0,
    notAfter := 90000000, san := [], isCA := false, pubKey := 5,
    sigKey := "CAKEY" }

/-- World containing the on-disk leaf certificate and its keychain
entry under the default issue paths. -/
def c1st : Sys :=
  (stEmpty.fsSet (issuePaths emptyOpts).certName
    (.file (.pem certL))).secSet KEYCHAIN_SERVICE (issuePaths emptyOpts).keyName "LK"

/-- The record issue loads back from c1st. -/
def c1pair : KeyCert :=
  (mkKeyCert "localhost" (some "LK") certL (.known caA)).withFiles
    (some (issuePaths emptyOpts).keyName) (some (issuePaths emptyOpts).certName)

/-- C5 (amended): issue with an empty host list always fails, but the
failure comes after authority initialization: the result is never ok,
the post-state and the trace are exactly those of init alone (so no
leaf-record filesystem or secret-store access occurs), and whenever init
succeeds the error is the hosts-required policy violation.  That the
failure precedes all filesystem and secret-store I/O is refuted by the
counterexample. -/
theorem c5_issue_empty_hosts (m : Manager) (o : CommonCertOptions) (now : Int)
    (st : Sys)
    (hhosts : hostList (select o DEFAULT_COMMON_CERT_OPTIONS).host = []) :
    (∀ r, (issue m o now st).1 ≠ .ok r) ∧
    (issue m o now st).2.1 = (init m now st).2.1 ∧
    (issue m o now st).2.2 = (init m now st).2.2 ∧
    (∀ x st1 tr1, init m now st = (.ok x, st1, tr1) →
      (issue m o now st).1 = .error .hostsRequired) := by
  rcases hi : init m now st with ⟨r, st1, tr1⟩
  rcases r with e | x
  · refine ⟨?_, ?_, ?_, ?_⟩ <;> simp [issue, bindRes, hi, hhosts]
  · rcases x with ⟨ca, m1⟩
    refine ⟨?_, ?_, ?_, ?_⟩ <;> simp [issue, bindRes, hi, hhosts]

/-- Manager fixture for the C5 counterexample: fresh, uncached. -/
def c5mgr : Manager :=
  { opts := { DEFAULT_CA_OPTIONS with dir := "d", host := .single "x" },
    subject := "x", pair := none }

/-- Counterexample for C5 as stated: on a fresh manager the empty-host
call still fails with the policy violation, but authority
initialization has already performed filesystem and secret-store I/O,
so the failure does not precede all such I/O (the trace is nonempty). -/
theorem c5_cex :
    errOf (issue c5mgr { host := some (.multi []) } 1000000 stEmpty).1 =
      some .hostsRequired ∧
    (issue c5mgr { host := some (.multi []) } 1000000 stEmpty).2.2 ≠ [] := by
  constructor <;> decide

/-- Witness for C5 on a cached manager. -/
theorem c5_witness :
    hostList (select { host := some (.multi []) }
      DEFAULT_COMMON_CERT_OPTIONS).host = [] ∧
    (issue mgrCached { host := some (.multi []) } 0 stEmpty).2.1 =
      (init mgrCached 0 stEmpty).2.1 :=
  ⟨rfl, (c5_issue_empty_hosts mgrCached { host := some (.multi []) } 0 stEmpty
    rfl).2.1⟩

/-- C1: on a manager with a cached authority, for a non-forced,
non-temporary issue call that loads an existing leaf (certificate file
present, keychain key present), the call returns exactly the loaded
record with the world unchanged and only the two load accesses in the
trace -- that is, the record is reused with no new certificate
generated -- if and only if the record issuer equals the authority
subject, the record notBefore is at or after the authority notBefore,
and the record notAfter is at or after now plus minRunDays days. -/
theorem c1_issue_reuse_iff (m : Manager) (ca : KeyCert) (o : CommonCertOptions)
    (now : Int) (st : Sys) (c : Cert) (k h0 : String) (hs : List String)
    (hpair : m.pair = some ca)
    (hforce : (select o DEFAULT_COMMON_CERT_OPTIONS).force = false)
    (htemp : (select o DEFAULT_COMMON_CERT_OPTIONS).temp = false)
    (hnk : (select o DEFAULT_COMMON_CERT_OPTIONS).noKey = false)
    (hh : hostList (select o DEFAULT_COMMON_CERT_OPTIONS).host = h0 :: hs)
    (hcert : st.fsGet (issuePaths o).certName = some (.file (.pem c)))
    (hsec : st.secGet KEYCHAIN_SERVICE (issuePaths o).keyName = some k)
    (hk : k ≠ "") :
    (issue m o now st =
        (.ok (((mkKeyCert (primaryHost (select o DEFAULT_COMMON_CERT_OPTIONS).host)
              (some k) c (.known ca)).withFiles
            (some (issuePaths o).keyName) (some (issuePaths o).certName)), m),
          st,
          [.fsRead (issuePaths o).certName,
           .kcGet KEYCHAIN_SERVICE (issuePaths o).keyName])) ↔
      (c.issuer = ca.subject ∧ c.notBefore ≥ ca.notBefore ∧
        c.notAfter ≥ daysFromNow (select o DEFAULT_COMMON_CERT_OPTIONS).minRunDays now) := by
  have hread := read_pem_key (select o DEFAULT_COMMON_CERT_OPTIONS)
    (primaryHost (select o DEFAULT_COMMON_CERT_OPTIONS).host)
    (.known ca) st c (some k) st
    [.kcGet KEYCHAIN_SERVICE (issuePaths o).keyName] hnk
    (by simpa [issuePaths] using hcert)
    (getSecret_hit _ _ _ _ (by simpa [issuePaths] using hsec) hk)
  constructor
  · intro heq
    by_contra hncond
    have hfail : ((mkKeyCert (primaryHost (select o DEFAULT_COMMON_CERT_OPTIONS).host)
          (some k) c (.known ca)).withFiles
        (some (issuePaths o).keyName) (some (issuePaths o).certName)).notAfter <
          daysFromNow (select o DEFAULT_COMMON_CERT_OPTIONS).minRunDays now ∨
        ((mkKeyCert (primaryHost (select o DEFAULT_COMMON_CERT_OPTIONS).host)
            (some k) c (.known ca)).withFiles
          (some (issuePaths o).keyName) (some (issuePaths o).certName)).issuer ≠
            ca.subject ∨
        ¬ ((mkKeyCert (primaryHost (select o DEFAULT_COMMON_CERT_OPTIONS).host)
            (some k) c (.known ca)).withFiles
          (some (issuePaths o).keyName) (some (issuePaths o).certName)).notBefore ≥
            ca.notBefore := by
      simp only [KeyCert.notAfter, KeyCert.notBefore, KeyCert.issuer,
        withFiles_cert, mkKeyCert_cert]
      by_contra hall
      push_neg at hall
      exact hncond ⟨hall.2.1, hall.2.2, hall.1⟩
    have hre := issue_cached_regen m ca o now st h0 hs _ _ _
      hpair hforce htemp hh
      (by simpa [issuePaths] using hread) hfail
    have hgen : (issue m o now st).2.1.gen = st.gen + 1 := by
      rw [hre]
      simpa [addTrace] using gen_issueRegen m o
        (select o DEFAULT_COMMON_CERT_OPTIONS) now st ca hpair
    rw [heq] at hgen
    simp at hgen
  · rintro ⟨h2, h3, h1⟩
    have := issue_cached_reuse m ca o now st h0 hs _ st
      [.fsRead (issuePaths o).certName,
       .kcGet KEYCHAIN_SERVICE (issuePaths o).keyName]
      hpair hforce htemp hh
      (by simpa [issuePaths] using hread)
      (by simp only [KeyCert.notAfter, withFiles_cert, mkKeyCert_cert]
          exact not_lt_of_ge h1)
      (by simpa only [KeyCert.issuer, withFiles_cert, mkKeyCert_cert] using h2)
      (by simpa only [KeyCert.notBefore, withFiles_cert, mkKeyCert_cert] using h3)
    simpa [issuePaths] using this

/-- Witness for C1: the loaded record satisfies every condition and is
returned unchanged. -/
theorem c1_witness :
    mgrCached.pair = some caA ∧
    c1st.fsGet (issuePaths emptyOpts).certName = some (.file (.pem certL)) ∧
    c1st.secGet KEYCHAIN_SERVICE (issuePaths emptyOpts).keyName = some "LK" ∧
    issue mgrCached emptyOpts 0 c1st =
      (.ok (c1pair, mgrCached), c1st,
       [.fsRead (issuePaths emptyOpts).certName,
        .kcGet KEYCHAIN_SERVICE (issuePaths emptyOpts).keyName]) := by
  have hcert : c1st.fsGet (issuePaths emptyOpts).certName =
      some (.file (.pem certL)) := by
    simp [c1st]
  have hsec : c1st.secGet KEYCHAIN_SERVICE (issuePaths emptyOpts).keyName =
      some "LK" := by
    simp [c1st]
  refine ⟨rfl, hcert, hsec, ?_⟩
  exact (c1_issue_reuse_iff mgrCached caA emptyOpts 0 c1st certL "LK"
    "localhost" ["127.0.0.1", "::1"] rfl rfl rfl rfl rfl hcert hsec
    (by decide)).mpr ⟨rfl, by decide, by decide⟩

/-- C3 (amended): with the other reuse checks passing, a leaf whose
notAfter equals now plus minRunDays days is reused (the strict less-than
comparison in the source does not fire at equality); only a leaf whose
notAfter is strictly below now plus minRunDays days is regenerated (the
keypair counter advances).  The original claim said equality already
regenerates; the counterexample refutes that. -/
theorem c3_minRunDays_boundary (m : Manager) (ca : KeyCert)
    (o : CommonCertOptions) (now : Int) (st : Sys) (c : Cert) (k h0 : String)
    (hs : List String)
    (hpair : m.pair = some ca)
    (hforce : (select o DEFAULT_COMMON_CERT_OPTIONS).force = false)
    (htemp : (select o DEFAULT_COMMON_CERT_OPTIONS).temp = false)
    (hnk : (select o DEFAULT_COMMON_CERT_OPTIONS).noKey = false)
    (hh : hostList (select o DEFAULT_COMMON_CERT_OPTIONS).host = h0 :: hs)
    (hcert : st.fsGet (issuePaths o).certName = some (.file (.pem c)))
    (hsec : st.secGet KEYCHAIN_SERVICE (issuePaths o).keyName = some k)
    (hk : k ≠ "") :
    (c.issuer = ca.subject → c.notBefore ≥ ca.notBefore →
      c.notAfter = daysFromNow (select o DEFAULT_COMMON_CERT_OPTIONS).minRunDays now →
      issue m o now st =
        (.ok (((mkKeyCert (primaryHost (select o DEFAULT_COMMON_CERT_OPTIONS).host)
              (some k) c (.known ca)).withFiles
            (some (issuePaths o).keyName) (some (issuePaths o).certName)), m),
          st,
          [.fsRead (issuePaths o).certName,
           .kcGet KEYCHAIN_SERVICE (issuePaths o).keyName])) ∧
    (c.notAfter < daysFromNow (select o DEFAULT_COMMON_CERT_OPTIONS).minRunDays now →
      (issue m o now st).2.1.gen = st.gen + 1) := by
  have hread := read_pem_key (select o DEFAULT_COMMON_CERT_OPTIONS)
    (primaryHost (select o DEFAULT_COMMON_CERT_OPTIONS).host)
    (.known ca) st c (some k) st
    [.kcGet KEYCHAIN_SERVICE (issuePaths o).keyName] hnk
    (by simpa [issuePaths] using hcert)
    (getSecret_hit _ _ _ _ (by simpa [issuePaths] using hsec) hk)
  constructor
  · intro h2 h3 heq
    have := issue_cached_reuse m ca o now st h0 hs _ st
      [.fsRead (issuePaths o).certName,
       .kcGet KEYCHAIN_SERVICE (issuePaths o).keyName]
      hpair hforce htemp hh
      (by simpa [issuePaths] using hread)
      (by simp only [KeyCert.notAfter, withFiles_cert, mkKeyCert_cert]
          exact not_lt_of_ge (le_of_eq heq.symm))
      (by simpa only [KeyCert.issuer, withFiles_cert, mkKeyCert_cert] using h2)
      (by simpa only [KeyCert.notBefore, withFiles_cert, mkKeyCert_cert] using h3)
    simpa [issuePaths] using this
  · intro h1
    have hre := issue_cached_regen m ca o now st h0 hs _ st
      [.fsRead (issuePaths o).certName,
       .kcGet KEYCHAIN_SERVICE (issuePaths o).keyName]
      hpair hforce htemp hh
      (by simpa [issuePaths] using hread)
      (Or.inl (by simpa only [KeyCert.notAfter, withFiles_cert, mkKeyCert_cert]
        using h1))
    rw [hre]
    simpa [addTrace] using gen_issueRegen m o
      (select o DEFAULT_COMMON_CERT_OPTIONS) now st ca hpair

/-- Leaf certificate whose notAfter is exactly now plus minRunDays days
for now = 0 and the default one-day minimum. -/
def certLB : Cert :=
  { issuer := "S", subject := "/CN=localhost", serial := 3, notBefore := 0,
    notAfter := 86400000, san := [], isCA := false, pubKey := 6,
    sigKey := "CAKEY" }

/-- World containing that boundary leaf under the default issue paths. -/
def c3st : Sys :=
  (stEmpty.fsSet (issuePaths emptyOpts).certName
    (.file (.pem certLB))).secSet KEYCHAIN_SERVICE (issuePaths emptyOpts).keyName "LK"

/-- Counterexample for C3 as stated: at notAfter exactly equal to now
plus minRunDays days (and all other checks passing) issue reuses the
record -- the state is unchanged and the keypair counter does not
advance -- rather than treating it as insufficient and regenerating. -/
theorem c3_boundary_cex :
    certLB.notAfter =
      daysFromNow (select emptyOpts DEFAULT_COMMON_CERT_OPTIONS).minRunDays 0 ∧
    issue mgrCached emptyOpts 0 c3st =
      (.ok (((mkKeyCert "localhost" (some "LK") certLB (.known caA)).withFiles
          (some (issuePaths emptyOpts).keyName)
          (some (issuePaths emptyOpts).certName)), mgrCached),
        c3st,
        [.fsRead (issuePaths emptyOpts).certName,
         .kcGet KEYCHAIN_SERVICE (issuePaths emptyOpts).keyName]) := by
  have hcert : c3st.fsGet (issuePaths emptyOpts).certName =
      some (.file (.pem certLB)) := by
    simp [c3st]
  have hsec : c3st.secGet KEYCHAIN_SERVICE (issuePaths emptyOpts).keyName =
      some "LK" := by
    simp [c3st]
  have hread := read_pem_key (select emptyOpts DEFAULT_COMMON_CERT_OPTIONS)
    (primaryHost (select emptyOpts DEFAULT_COMMON_CERT_OPTIONS).host)
    (.known caA) c3st certLB (some "LK") c3st
    [.kcGet KEYCHAIN_SERVICE (issuePaths emptyOpts).keyName] rfl
    (by simpa [issuePaths] using hcert)
    (getSecret_hit _ _ _ _ (by simpa [issuePaths] using hsec) (by decide))
  refine ⟨by decide, ?_⟩
  have := issue_cached_reuse mgrCached caA emptyOpts 0 c3st "localhost"
    ["127.0.0.1", "::1"] _ c3st
    [.fsRead (issuePaths emptyOpts).certName,
     .kcGet KEYCHAIN_SERVICE (issuePaths emptyOpts).keyName]
    rfl rfl rfl rfl
    (by simpa [issuePaths] using hread)
    (by simp only [KeyCert.notAfter, withFiles_cert, mkKeyCert_cert]
        decide)
    (by simp only [KeyCert.issuer, withFiles_cert, mkKeyCert_cert]
        decide)
    (by simp only [KeyCert.notBefore, withFiles_cert, mkKeyCert_cert]
        decide)
  simpa [issuePaths] using this

/-- Witness for C3: the boundary equality branch and the strict
shortfall branch, both at concrete inputs. -/
theorem c3_witness :
    issue mgrCached emptyOpts 0 c3st =
      (.ok (((mkKeyCert "localhost" (some "LK") certLB (.known caA)).withFiles
          (some (issuePaths emptyOpts).keyName)
          (some (issuePaths emptyOpts).certName)), mgrCached),
        c3st,
        [.fsRead (issuePaths emptyOpts).certName,
         .kcGet KEYCHAIN_SERVICE (issuePaths emptyOpts).keyName]) ∧
    (issue mgrCached { minRunDays := some 2 } 0 c3st).2.1.gen = c3st.gen + 1 := by
  constructor
  · have hcert : c3st.fsGet (issuePaths emptyOpts).certName =
        some (.file (.pem certLB)) := by
      simp [c3st]
    have hsec : c3st.secGet KEYCHAIN_SERVICE (issuePaths emptyOpts).keyName =
        some "LK" := by
      simp [c3st]
    exact (c3_minRunDays_boundary mgrCached caA emptyOpts 0 c3st certLB "LK"
      "localhost" ["127.0.0.1", "::1"] rfl rfl rfl rfl rfl hcert hsec
      (by decide)).1 rfl (by decide) (by decide)
  · have hpaths : issuePaths { minRunDays := some 2 } = issuePaths emptyOpts := by
      decide
    have hcert : c3st.fsGet (issuePaths { minRunDays := some 2 }).certName =
        some (.file (.pem certLB)) := by
      rw [hpaths]
      simp [c3st]
    have hsec : c3st.secGet KEYCHAIN_SERVICE
        (issuePaths { minRunDays := some 2 }).keyName = some "LK" := by
      rw [hpaths]
      simp [c3st]
    exact (c3_minRunDays_boundary mgrCached caA { minRunDays := some 2 } 0 c3st
      certLB "LK" "localhost" ["127.0.0.1", "::1"] rfl rfl rfl rfl rfl hcert hsec
      (by decide)).2 (by decide)
/-- C7: for every non-temporary record with a (non-empty) key and an
authority reference, write then read with noKey = false for the same
name and directory succeeds and yields a record whose certificate and
key equal the originals and whose chain is the record certificate
followed by the authority certificate; the read performs no further
state change.  Chain is modelled from the spec (see KeyCert.chain). -/
theorem c7_write_read_roundtrip (kc : KeyCert) (opts : RequiredCommonCertOptions)
    (st : Sys) (k : String) (a : KeyCert)
    (htemp : opts.temp = false)
    (hnk : opts.noKey = false)
    (hkey : kc.key = some k) (hk : k ≠ "")
    (hca : kc.caResolved = some a)
    (hkeyDir : st.fsGet (getNames opts kc.name).keyName ≠ some .dir)
    (hcertDir : st.fsGet (getNames opts kc.name).certName ≠ some .dir) :
    ∃ kc1 st1 tr1 kc2 tr2,
      KeyCert.write kc opts st = (.ok kc1, st1, tr1) ∧
      KeyCert.read opts kc.name kc.ca st1 = (.ok (some kc2), st1, tr2) ∧
      kc2.cert = kc.cert ∧ kc2.key = kc.key ∧
      kc2.chain = [kc.cert, a.cert] := by
  have hne := keyName_ne_certName opts kc.name
  -- Step 1: the setSecret half of write, by cases on a legacy file.
  have hsec : ∃ st2 tr2,
      setSecret KEYCHAIN_SERVICE (getNames opts kc.name).keyName k st =
        (.ok (), st2, tr2) ∧
      st2.secGet KEYCHAIN_SERVICE (getNames opts kc.name).keyName = some k ∧
      st2.fsGet (getNames opts kc.name).certName =
        st.fsGet (getNames opts kc.name).certName := by
    rcases hleg : st.fsGet (getNames opts kc.name).keyName with _ | e
    · exact ⟨_, _, setSecret_nolegacy _ _ _ _ hleg, by simp, by simp⟩
    · cases e with
      | file d =>
        refine ⟨_, _, setSecret_legacyFile _ _ _ _ _ hleg, by simp, ?_⟩
        rw [fsGet_fsRm_ne _ _ _ hne]
        simp
      | dir => exact absurd hleg hkeyDir
  rcases hsec with ⟨st2, tr2, hsec, hsec2, hfs2⟩
  have hcert2 : st2.fsGet (getNames opts kc.name).certName ≠ some .dir := by
    rw [hfs2]
    exact hcertDir
  have hw := write_keyed_eq kc opts st k st2 tr2 htemp hkey hk hsec hcert2
  -- Step 2: the read from the written state.
  have hcert1 : (st2.fsSet (getNames opts kc.name).certName
      (.file (.pem kc.cert))).fsGet (getNames opts kc.name).certName =
      some (.file (.pem kc.cert)) := by simp
  have hsec1 : (st2.fsSet (getNames opts kc.name).certName
      (.file (.pem kc.cert))).secGet KEYCHAIN_SERVICE
      (getNames opts kc.name).keyName = some k := by
    simpa using hsec2
  have hr := read_pem_key opts kc.name kc.ca
    (st2.fsSet (getNames opts kc.name).certName (.file (.pem kc.cert)))
    kc.cert (some k) _
    [.kcGet KEYCHAIN_SERVICE (getNames opts kc.name).keyName] hnk hcert1
    (getSecret_hit _ _ _ _ hsec1 hk)
  refine ⟨_, _, _, _, _, hw, hr, by simp, ?_, ?_⟩
  · simp [hk, truthyOpt, hkey]
  · rcases kc with ⟨n, ky, c, ca, kf, cf⟩
    cases ca with
    | undef => simp [KeyCert.caResolved, KeyCert.ca] at hca
    | selfSigned =>
      simp [KeyCert.caResolved, KeyCert.ca] at hca
      simp [KeyCert.chain, KeyCert.caResolved, KeyCert.withFiles, mkKeyCert,
        KeyCert.ca, KeyCert.cert, ← hca]
    | known a2 =>
      simp [KeyCert.caResolved, KeyCert.ca] at hca
      simp [KeyCert.chain, KeyCert.caResolved, KeyCert.withFiles, mkKeyCert,
        KeyCert.ca, KeyCert.cert, hca]

/-- Record fixture for the C7 witness. -/
def c7kc : KeyCert := mkKeyCert "h" (some "K") certA (.known caA)

/-- Witness for C7 on the empty world with default options. -/
theorem c7_witness :
    c7kc.key = some "K" ∧
    c7kc.caResolved = some caA ∧
    (∃ kc1 st1 tr1 kc2 tr2,
      KeyCert.write c7kc DEFAULT_COMMON_CERT_OPTIONS stEmpty = (.ok kc1, st1, tr1) ∧
      KeyCert.read DEFAULT_COMMON_CERT_OPTIONS c7kc.name c7kc.ca st1 =
        (.ok (some kc2), st1, tr2) ∧
      kc2.cert = c7kc.cert ∧ kc2.key = c7kc.key ∧
      kc2.chain = [c7kc.cert, caA.cert]) :=
  ⟨rfl, rfl,
    c7_write_read_roundtrip c7kc DEFAULT_COMMON_CERT_OPTIONS stEmpty "K" caA
      rfl rfl rfl (by decide) rfl (by simp [stEmpty, Sys.fsGet, alookup])
      (by simp [stEmpty, Sys.fsGet, alookup])⟩

/-! Machinery for the issue-twice claim. -/

/-- The leaf certificate issueNew builds from the g-th generated
keypair. -/
def leafCertOf (opts : RequiredCommonCertOptions) (ca : KeyCert) (now : Int)
    (g : Nat) : Cert :=
  { issuer := ca.subject
    subject := "/CN=" ++ primaryHost opts.host
    serial := now
    notBefore := zulu (now - 10000)
    notAfter := zulu (daysFromNow opts.notAfterDays now)
    san := altNames (hostList opts.host)
    isCA := false
    pubKey := g
    sigKey := ca.key.getD "" }

theorem privPem_ne (n : Nat) : privPem n ≠ "" := by
  intro h
  have hl := congrArg String.length h
  simp [privPem, String.length_append] at hl
  exact absurd hl.1 (by decide)

@[simp] theorem fsGet_setGen (st : Sys) (g : Nat) (p : String) :
    (Sys.mk st.fs st.secrets g).fsGet p = st.fsGet p := rfl

@[simp] theorem secGet_setGen (st : Sys) (g : Nat) (s a : String) :
    (Sys.mk st.fs st.secrets g).secGet s a = st.secGet s a := rfl

theorem write_keyed_err_legacyDir (kc : KeyCert) (opts : RequiredCommonCertOptions)
    (st : Sys) (k : String)
    (htemp : opts.temp = false) (hkey : kc.key = some k) (hk : k ≠ "")
    (hleg : st.fsGet (getNames opts kc.name).keyName = some .dir) :
    KeyCert.write kc opts st =
      (.error .eisdir,
       st.secSet KEYCHAIN_SERVICE (getNames opts kc.name).keyName k,
       [.fsMkdir (getNames opts kc.name).certDir,
        .kcSet KEYCHAIN_SERVICE (getNames opts kc.name).keyName,
        .fsStat (getNames opts kc.name).keyName,
        .fsRm (getNames opts kc.name).keyName]) := by
  simp [KeyCert.write, htemp, mkdirM, bindRes, hkey, hk,
    setSecret_legacyDir _ _ _ _ hleg]

theorem write_keyed_err_certDir (kc : KeyCert) (opts : RequiredCommonCertOptions)
    (st : Sys) (k : String) (st2 : Sys) (tr2 : List Eff)
    (htemp : opts.temp = false) (hkey : kc.key = some k) (hk : k ≠ "")
    (hsec : setSecret KEYCHAIN_SERVICE (getNames opts kc.name).keyName k st =
      (.ok (), st2, tr2))
    (hcd : st2.fsGet (getNames opts kc.name).certName = some .dir) :
    KeyCert.write kc opts st =
      (.error .eisdir, st2,
       .fsMkdir (getNames opts kc.name).certDir ::
         (tr2 ++ [.fsWrite (getNames opts kc.name).certName])) := by
  simp [KeyCert.write, htemp, mkdirM, bindRes, hkey, hk, hsec, writeFileM, hcd]

theorem issueNewM_cached (m : Manager) (ca : KeyCert) (o : CommonCertOptions)
    (now : Int) (st : Sys)
    (hpair : m.pair = some ca) (hck : truthyOpt ca.key = true) :
    issueNewM m o now st =
      (.ok (mkKeyCert (primaryHost (select o DEFAULT_COMMON_CERT_OPTIONS).host)
          (some (privPem st.gen))
          (leafCertOf (select o DEFAULT_COMMON_CERT_OPTIONS) ca now st.gen)
          (.known ca), m),
       { st with gen := st.gen + 1 }) := by
  simp [issueNewM, hpair, hck, leafCertOf]

theorem issue_cached_readErr (m : Manager) (ca : KeyCert) (o : CommonCertOptions)
    (now : Int) (st : Sys) (h0 : String) (hs : List String) (e : Err)
    (st2 : Sys) (tr2 : List Eff)
    (hpair : m.pair = some ca)
    (hforce : (select o DEFAULT_COMMON_CERT_OPTIONS).force = false)
    (htemp : (select o DEFAULT_COMMON_CERT_OPTIONS).temp = false)
    (hh : hostList (select o DEFAULT_COMMON_CERT_OPTIONS).host = h0 :: hs)
    (hread : KeyCert.read (select o DEFAULT_COMMON_CERT_OPTIONS)
        (primaryHost (select o DEFAULT_COMMON_CERT_OPTIONS).host)
        (.known ca) st = (.error e, st2, tr2)) :
    (issue m o now st).1 = .error e := by
  simp [issue, init, hpair, bindRes, hh, hforce, htemp, hread]

theorem getSecret_shape (svc acct : String) (st : Sys) :
    (∃ v st2 tr2, getSecret svc acct st = (.ok v, st2, tr2)) ∨
    getSecret svc acct st =
      (.error .eisdir, st, [.kcGet svc acct, .fsRead acct]) := by
  cases hv : truthyOpt (st.secGet svc acct) with
  | true =>
    rcases truthyOpt_true hv with ⟨v, hsv, hne⟩
    exact .inl ⟨_, _, _, getSecret_hit _ _ _ _ hsv hne⟩
  | false =>
    rcases hf : st.fsGet acct with _ | e
    · exact .inl ⟨_, _, _, getSecret_missing _ _ _ hv hf⟩
    · cases e with
      | file d => exact .inl ⟨_, _, _, getSecret_migrate _ _ _ _ hv hf⟩
      | dir => exact .inr (getSecret_dirfail _ _ _ hv hf)

theorem issue_reuse_of_hit (m : Manager) (ca : KeyCert) (o : CommonCertOptions)
    (now : Int) (s : Sys) (c : Cert) (v h0 : String) (hs : List String)
    (hpair : m.pair = some ca)
    (hforce : (select o DEFAULT_COMMON_CERT_OPTIONS).force = false)
    (htemp : (select o DEFAULT_COMMON_CERT_OPTIONS).temp = false)
    (hnk : (select o DEFAULT_COMMON_CERT_OPTIONS).noKey = false)
    (hh : hostList (select o DEFAULT_COMMON_CERT_OPTIONS).host = h0 :: hs)
    (hcf : s.fsGet (issuePaths o).certName = some (.file (.pem c)))
    (hsv : s.secGet KEYCHAIN_SERVICE (issuePaths o).keyName = some v)
    (hv : v ≠ "")
    (h1 : ¬ c.notAfter <
      daysFromNow (select o DEFAULT_COMMON_CERT_OPTIONS).minRunDays now)
    (h2 : c.issuer = ca.subject)
    (h3 : c.notBefore ≥ ca.notBefore) :
    issue m o now s =
      (.ok (((mkKeyCert (primaryHost (select o DEFAULT_COMMON_CERT_OPTIONS).host)
          (some v) c (.known ca)).withFiles
        (some (issuePaths o).keyName) (some (issuePaths o).certName)), m), s,
       [.fsRead (issuePaths o).certName,
        .kcGet KEYCHAIN_SERVICE (issuePaths o).keyName]) := by
  have hread := read_pem_key (select o DEFAULT_COMMON_CERT_OPTIONS)
    (primaryHost (select o DEFAULT_COMMON_CERT_OPTIONS).host)
    (.known ca) s c (some v) s
    [.kcGet KEYCHAIN_SERVICE (issuePaths o).keyName] hnk
    (by simpa [issuePaths] using hcf)
    (getSecret_hit _ _ _ _ (by simpa [issuePaths] using hsv) hv)
  have := issue_cached_reuse m ca o now s h0 hs _ s
    [.fsRead (issuePaths o).certName,
     .kcGet KEYCHAIN_SERVICE (issuePaths o).keyName]
    hpair hforce htemp hh
    (by simpa [issuePaths] using hread)
    (by simpa only [KeyCert.notAfter, withFiles_cert, mkKeyCert_cert] using h1)
    (by simpa only [KeyCert.issuer, withFiles_cert, mkKeyCert_cert] using h2)
    (by simpa only [KeyCert.notBefore, withFiles_cert, mkKeyCert_cert] using h3)
  simpa [issuePaths] using this

theorem issue_reuse_of_missingKey (m : Manager) (ca : KeyCert)
    (o : CommonCertOptions) (now : Int) (s : Sys) (c : Cert) (h0 : String)
    (hs : List String)
    (hpair : m.pair = some ca)
    (hforce : (select o DEFAULT_COMMON_CERT_OPTIONS).force = false)
    (htemp : (select o DEFAULT_COMMON_CERT_OPTIONS).temp = false)
    (hnk : (select o DEFAULT_COMMON_CERT_OPTIONS).noKey = false)
    (hh : hostList (select o DEFAULT_COMMON_CERT_OPTIONS).host = h0 :: hs)
    (hcf : s.fsGet (issuePaths o).certName = some (.file (.pem c)))
    (hsv : truthyOpt (s.secGet KEYCHAIN_SERVICE (issuePaths o).keyName) = false)
    (hkf : s.fsGet (issuePaths o).keyName = none)
    (h1 : ¬ c.notAfter <
      daysFromNow (select o DEFAULT_COMMON_CERT_OPTIONS).minRunDays now)
    (h2 : c.issuer = ca.subject)
    (h3 : c.notBefore ≥ ca.notBefore) :
    issue m o now s =
      (.ok (((mkKeyCert (primaryHost (select o DEFAULT_COMMON_CERT_OPTIONS).host)
          none c (.known ca)).withFiles
        (some (issuePaths o).keyName) (some (issuePaths o).certName)), m), s,
       [.fsRead (issuePaths o).certName,
        .kcGet KEYCHAIN_SERVICE (issuePaths o).keyName,
        .fsRead (issuePaths o).keyName]) := by
  have hread := read_pem_key (select o DEFAULT_COMMON_CERT_OPTIONS)
    (primaryHost (select o DEFAULT_COMMON_CERT_OPTIONS).host)
    (.known ca) s c none s
    [.kcGet KEYCHAIN_SERVICE (issuePaths o).keyName,
     .fsRead (issuePaths o).keyName] hnk
    (by simpa [issuePaths] using hcf)
    (getSecret_missing _ _ _ (by simpa [issuePaths] using hsv)
      (by simpa [issuePaths] using hkf))
  have := issue_cached_reuse m ca o now s h0 hs _ s
    [.fsRead (issuePaths o).certName,
     .kcGet KEYCHAIN_SERVICE (issuePaths o).keyName,
     .fsRead (issuePaths o).keyName]
    hpair hforce htemp hh
    (by simpa [issuePaths] using hread)
    (by simpa only [KeyCert.notAfter, withFiles_cert, mkKeyCert_cert] using h1)
    (by simpa only [KeyCert.issuer, withFiles_cert, mkKeyCert_cert] using h2)
    (by simpa only [KeyCert.notBefore, withFiles_cert, mkKeyCert_cert] using h3)
  simpa [issuePaths] using this

theorem issue_reuse_of_migrate (m : Manager) (ca : KeyCert)
    (o : CommonCertOptions) (now : Int) (s : Sys) (c : Cert) (d : FileData)
    (h0 : String) (hs : List String)
    (hpair : m.pair = some ca)
    (hforce : (select o DEFAULT_COMMON_CERT_OPTIONS).force = false)
    (htemp : (select o DEFAULT_COMMON_CERT_OPTIONS).temp = false)
    (hnk : (select o DEFAULT_COMMON_CERT_OPTIONS).noKey = false)
    (hh : hostList (select o DEFAULT_COMMON_CERT_OPTIONS).host = h0 :: hs)
    (hcf : s.fsGet (issuePaths o).certName = some (.file (.pem c)))
    (hsv : truthyOpt (s.secGet KEYCHAIN_SERVICE (issuePaths o).keyName) = false)
    (hkf : s.fsGet (issuePaths o).keyName = some (.file d))
    (h1 : ¬ c.notAfter <
      daysFromNow (select o DEFAULT_COMMON_CERT_OPTIONS).minRunDays now)
    (h2 : c.issuer = ca.subject)
    (h3 : c.notBefore ≥ ca.notBefore) :
    issue m o now s =
      (.ok (((mkKeyCert (primaryHost (select o DEFAULT_COMMON_CERT_OPTIONS).host)
          (some d.toBytes) c (.known ca)).withFiles
        (some (issuePaths o).keyName) (some (issuePaths o).certName)), m),
       (s.secSet KEYCHAIN_SERVICE (issuePaths o).keyName d.toBytes).fsRm
         (issuePaths o).keyName,
       [.fsRead (issuePaths o).certName,
        .kcGet KEYCHAIN_SERVICE (issuePaths o).keyName,
        .fsRead (issuePaths o).keyName,
        .kcSet KEYCHAIN_SERVICE (issuePaths o).keyName,
        .fsRm (issuePaths o).keyName]) := by
  have hmig := getSecret_migrate KEYCHAIN_SERVICE (issuePaths o).keyName s d
    hsv hkf
  have hread := read_pem_key (select o DEFAULT_COMMON_CERT_OPTIONS)
    (primaryHost (select o DEFAULT_COMMON_CERT_OPTIONS).host)
    (.known ca) s c (some d.toBytes)
    ((s.secSet KEYCHAIN_SERVICE (issuePaths o).keyName d.toBytes).fsRm
      (issuePaths o).keyName)
    [.kcGet KEYCHAIN_SERVICE (issuePaths o).keyName,
     .fsRead (issuePaths o).keyName,
     .kcSet KEYCHAIN_SERVICE (issuePaths o).keyName,
     .fsRm (issuePaths o).keyName] hnk
    (by simpa [issuePaths] using hcf)
    (by simpa [issuePaths] using hmig)
  have := issue_cached_reuse m ca o now s h0 hs _ _ _
    hpair hforce htemp hh
    (by simpa [issuePaths] using hread)
    (by simpa only [KeyCert.notAfter, withFiles_cert, mkKeyCert_cert] using h1)
    (by simpa only [KeyCert.issuer, withFiles_cert, mkKeyCert_cert] using h2)
    (by simpa only [KeyCert.notBefore, withFiles_cert, mkKeyCert_cert] using h3)
  simpa [issuePaths] using this

theorem issueRegen_cases (m : Manager) (ca : KeyCert) (o : CommonCertOptions)
    (now : Int) (stR : Sys)
    (hpair : m.pair = some ca) (hck : truthyOpt ca.key = true)
    (htemp : (select o DEFAULT_COMMON_CERT_OPTIONS).temp = false) :
    (∃ e st' tr',
      issueRegen m o (select o DEFAULT_COMMON_CERT_OPTIONS) now stR =
        (.error e, st', tr')) ∨
    (∃ stW trW,
      issueRegen m o (select o DEFAULT_COMMON_CERT_OPTIONS) now stR =
        (.ok (((mkKeyCert (primaryHost (select o DEFAULT_COMMON_CERT_OPTIONS).host)
            (some (privPem stR.gen))
            (leafCertOf (select o DEFAULT_COMMON_CERT_OPTIONS) ca now stR.gen)
            (.known ca)).withFiles
          (some (issuePaths o).keyName) (some (issuePaths o).certName), m)),
         stW, trW) ∧
      stW.fsGet (issuePaths o).certName =
        some (.file (.pem (leafCertOf (select o DEFAULT_COMMON_CERT_OPTIONS)
          ca now stR.gen))) ∧
      stW.secGet KEYCHAIN_SERVICE (issuePaths o).keyName =
        some (privPem stR.gen)) := by
  have hne := keyName_ne_certName (select o DEFAULT_COMMON_CERT_OPTIONS)
    (primaryHost (select o DEFAULT_COMMON_CERT_OPTIONS).host)
  have hgoal0 : issueRegen m o (select o DEFAULT_COMMON_CERT_OPTIONS) now stR =
      bindRes (KeyCert.write
        (mkKeyCert (primaryHost (select o DEFAULT_COMMON_CERT_OPTIONS).host)
          (some (privPem stR.gen))
          (leafCertOf (select o DEFAULT_COMMON_CERT_OPTIONS) ca now stR.gen)
          (.known ca))
        (select o DEFAULT_COMMON_CERT_OPTIONS)
        (Sys.mk stR.fs stR.secrets (stR.gen + 1)))
        (fun kc2 st4 => (.ok (kc2, m), st4, [])) := by
    unfold issueRegen
    rw [issueNewM_cached m ca o now stR hpair hck]
  rw [hgoal0]
  have hkeyN : (mkKeyCert (primaryHost (select o DEFAULT_COMMON_CERT_OPTIONS).host)
      (some (privPem stR.gen))
      (leafCertOf (select o DEFAULT_COMMON_CERT_OPTIONS) ca now stR.gen)
      (.known ca)).key = some (privPem stR.gen) := by
    simp [truthyOpt, privPem_ne stR.gen]
  rcases hleg : stR.fsGet (issuePaths o).keyName with _ | e
  · -- no legacy key file
    have hsec := setSecret_nolegacy KEYCHAIN_SERVICE (issuePaths o).keyName
      (privPem stR.gen) (Sys.mk stR.fs stR.secrets (stR.gen + 1))
      (by simpa using hleg)
    rcases hcd : stR.fsGet (issuePaths o).certName with _ | e2
    · have hw := write_keyed_eq _ (select o DEFAULT_COMMON_CERT_OPTIONS)
        (Sys.mk stR.fs stR.secrets (stR.gen + 1)) (privPem stR.gen) _ _
        htemp hkeyN (privPem_ne stR.gen)
        (by simpa [issuePaths] using hsec)
        (by simp only [issuePaths] at hcd
            simp [hcd])
      refine .inr ⟨((Sys.mk stR.fs stR.secrets (stR.gen + 1)).secSet KEYCHAIN_SERVICE
            (issuePaths o).keyName (privPem stR.gen)).fsSet (issuePaths o).certName
            (.file (.pem (leafCertOf (select o DEFAULT_COMMON_CERT_OPTIONS) ca now stR.gen))),
          [.fsMkdir (issuePaths o).certDir,
            .kcSet KEYCHAIN_SERVICE (issuePaths o).keyName,
            .fsStat (issuePaths o).keyName, .fsWrite (issuePaths o).certName], ?_, ?_, ?_⟩
      · rw [hw]
        simp [bindRes, issuePaths]
      · simp [issuePaths]
      · simp [issuePaths]
    · cases e2 with
      | file d2 =>
        have hw := write_keyed_eq _ (select o DEFAULT_COMMON_CERT_OPTIONS)
          (Sys.mk stR.fs stR.secrets (stR.gen + 1)) (privPem stR.gen) _ _
          htemp hkeyN (privPem_ne stR.gen)
          (by simpa [issuePaths] using hsec)
          (by simp only [issuePaths] at hcd
              simp [hcd])
        refine .inr ⟨((Sys.mk stR.fs stR.secrets (stR.gen + 1)).secSet KEYCHAIN_SERVICE
            (issuePaths o).keyName (privPem stR.gen)).fsSet (issuePaths o).certName
            (.file (.pem (leafCertOf (select o DEFAULT_COMMON_CERT_OPTIONS) ca now stR.gen))),
            [.fsMkdir (issuePaths o).certDir,
            .kcSet KEYCHAIN_SERVICE (issuePaths o).keyName,
            .fsStat (issuePaths o).keyName, .fsWrite (issuePaths o).certName], ?_, ?_, ?_⟩
        · rw [hw]
          simp [bindRes, issuePaths]
        · simp [issuePaths]
        · simp [issuePaths]
      | dir =>
        have hw := write_keyed_err_certDir _ (select o DEFAULT_COMMON_CERT_OPTIONS)
          (Sys.mk stR.fs stR.secrets (stR.gen + 1)) (privPem stR.gen) _ _
          htemp hkeyN (privPem_ne stR.gen)
          (by simpa [issuePaths] using hsec)
          (by simp only [issuePaths] at hcd
              simpa using hcd)
        refine .inl ⟨.eisdir,
          (Sys.mk stR.fs stR.secrets (stR.gen + 1)).secSet KEYCHAIN_SERVICE
            (issuePaths o).keyName (privPem stR.gen),
          [.fsMkdir (issuePaths o).certDir,
            .kcSet KEYCHAIN_SERVICE (issuePaths o).keyName,
            .fsStat (issuePaths o).keyName, .fsWrite (issuePaths o).certName], ?_⟩
        rw [hw]
        simp [bindRes, issuePaths]
  · cases e with
    | file d =>
      have hsec := setSecret_legacyFile KEYCHAIN_SERVICE (issuePaths o).keyName
        (privPem stR.gen) (Sys.mk stR.fs stR.secrets (stR.gen + 1)) d
        (by simpa using hleg)
      rcases hcd : stR.fsGet (issuePaths o).certName with _ | e2
      · have hw := write_keyed_eq _ (select o DEFAULT_COMMON_CERT_OPTIONS)
          (Sys.mk stR.fs stR.secrets (stR.gen + 1)) (privPem stR.gen) _ _
          htemp hkeyN (privPem_ne stR.gen)
          (by simpa [issuePaths] using hsec)
          (by simp only [issuePaths] at hcd
              simp only [issuePaths, mkKeyCert_name]
              rw [fsGet_fsRm_ne _ _ _ hne]
              simp [hcd])
        refine .inr ⟨(((Sys.mk stR.fs stR.secrets (stR.gen + 1)).secSet KEYCHAIN_SERVICE
            (issuePaths o).keyName (privPem stR.gen)).fsRm
            (issuePaths o).keyName).fsSet (issuePaths o).certName
            (.file (.pem (leafCertOf (select o DEFAULT_COMMON_CERT_OPTIONS) ca now stR.gen))),
            [.fsMkdir (issuePaths o).certDir,
              .kcSet KEYCHAIN_SERVICE (issuePaths o).keyName,
              .fsStat (issuePaths o).keyName, .fsRm (issuePaths o).keyName,
              .fsWrite (issuePaths o).certName], ?_, ?_, ?_⟩
        · rw [hw]
          simp [bindRes, issuePaths]
        · simp [issuePaths]
        · simp [issuePaths]
      · cases e2 with
        | file d2 =>
          have hw := write_keyed_eq _ (select o DEFAULT_COMMON_CERT_OPTIONS)
            (Sys.mk stR.fs stR.secrets (stR.gen + 1)) (privPem stR.gen) _ _
            htemp hkeyN (privPem_ne stR.gen)
            (by simpa [issuePaths] using hsec)
            (by simp only [issuePaths] at hcd
                simp only [issuePaths, mkKeyCert_name]
                rw [fsGet_fsRm_ne _ _ _ hne]
                simp [hcd])
          refine .inr ⟨(((Sys.mk stR.fs stR.secrets (stR.gen + 1)).secSet KEYCHAIN_SERVICE
            (issuePaths o).keyName (privPem stR.gen)).fsRm
            (issuePaths o).keyName).fsSet (issuePaths o).certName
            (.file (.pem (leafCertOf (select o DEFAULT_COMMON_CERT_OPTIONS) ca now stR.gen))),
              [.fsMkdir (issuePaths o).certDir,
            .kcSet KEYCHAIN_SERVICE (issuePaths o).keyName,
            .fsStat (issuePaths o).keyName, .fsRm (issuePaths o).keyName,
            .fsWrite (issuePaths o).certName], ?_, ?_, ?_⟩
          · rw [hw]
            simp [bindRes, issuePaths]
          · simp [issuePaths]
          · simp [issuePaths]
        | dir =>
          have hw := write_keyed_err_certDir _ (select o DEFAULT_COMMON_CERT_OPTIONS)
            (Sys.mk stR.fs stR.secrets (stR.gen + 1)) (privPem stR.gen) _ _
            htemp hkeyN (privPem_ne stR.gen)
            (by simpa [issuePaths] using hsec)
            (by simp only [issuePaths] at hcd
                simp only [issuePaths, mkKeyCert_name]
                rw [fsGet_fsRm_ne _ _ _ hne]
                simpa using hcd)
          refine .inl ⟨.eisdir,
            ((Sys.mk stR.fs stR.secrets (stR.gen + 1)).secSet KEYCHAIN_SERVICE
              (issuePaths o).keyName (privPem stR.gen)).fsRm (issuePaths o).keyName,
            [.fsMkdir (issuePaths o).certDir,
              .kcSet KEYCHAIN_SERVICE (issuePaths o).keyName,
              .fsStat (issuePaths o).keyName, .fsRm (issuePaths o).keyName,
              .fsWrite (issuePaths o).certName], ?_⟩
          rw [hw]
          simp [bindRes, issuePaths]
    | dir =>
      have hw := write_keyed_err_legacyDir _ (select o DEFAULT_COMMON_CERT_OPTIONS)
        (Sys.mk stR.fs stR.secrets (stR.gen + 1)) (privPem stR.gen)
        htemp hkeyN (privPem_ne stR.gen)
        (by simp only [issuePaths] at hleg
            simpa using hleg)
      refine .inl ⟨.eisdir,
        (Sys.mk stR.fs stR.secrets (stR.gen + 1)).secSet KEYCHAIN_SERVICE
          (issuePaths o).keyName (privPem stR.gen),
        [.fsMkdir (issuePaths o).certDir,
          .kcSet KEYCHAIN_SERVICE (issuePaths o).keyName,
          .fsStat (issuePaths o).keyName, .fsRm (issuePaths o).keyName], ?_⟩
      rw [hw]
      simp [bindRes, issuePaths]

theorem reuse_fail_of_not (c : Cert) (ca : KeyCert) (oneDay : Int)
    (h : ¬ (¬ c.notAfter < oneDay ∧ c.issuer = ca.subject ∧
      c.notBefore ≥ ca.notBefore)) :
    c.notAfter < oneDay ∨ c.issuer ≠ ca.subject ∨ ¬ c.notBefore ≥ ca.notBefore := by
  by_cases h1 : c.notAfter < oneDay
  · exact .inl h1
  · by_cases h2 : c.issuer = ca.subject
    · by_cases h3 : c.notBefore ≥ ca.notBefore
      · exact absurd ⟨h1, h2, h3⟩ h
      · exact .inr (.inr h3)
    · exact .inr (.inl h2)

/-- C2 (amended): on a manager with a cached authority whose record has
a (truthy) key and whose notBefore is at most the truncated ten-seconds
ago instant, issuing twice in immediate succession (same instant, same
options: not forced, not temporary, key material requested) with
minRunDays small enough that the second-truncated notAfter of a freshly
generated leaf still covers now plus minRunDays days, if the first call
succeeds then the second call succeeds and returns byte-identical
certificate and key material.  For minRunDays above notAfterDays this
fails (the counterexample regenerates fresh key material on the second
call), which is what forces the amendment. -/
theorem c2_issue_idempotent (m : Manager) (ca : KeyCert) (o : CommonCertOptions)
    (now : Int) (st : Sys) (h0 : String) (hs : List String)
    (kc1 : KeyCert) (m1 : Manager) (st1 : Sys) (tr1 : List Eff)
    (hpair : m.pair = some ca)
    (hck : truthyOpt ca.key = true)
    (hforce : (select o DEFAULT_COMMON_CERT_OPTIONS).force = false)
    (htemp : (select o DEFAULT_COMMON_CERT_OPTIONS).temp = false)
    (hnk : (select o DEFAULT_COMMON_CERT_OPTIONS).noKey = false)
    (hh : hostList (select o DEFAULT_COMMON_CERT_OPTIONS).host = h0 :: hs)
    (hmrd : daysFromNow (select o DEFAULT_COMMON_CERT_OPTIONS).minRunDays now ≤
      zulu (daysFromNow (select o DEFAULT_COMMON_CERT_OPTIONS).notAfterDays now))
    (hcaNB : ca.notBefore ≤ zulu (now - 10000))
    (h1 : issue m o now st = (.ok (kc1, m1), st1, tr1)) :
    ∃ kc2 m2 st2 tr2,
      issue m1 o now st1 = (.ok (kc2, m2), st2, tr2) ∧
      kc2.cert = kc1.cert ∧ kc2.key = kc1.key := by
  have hleafCond : ∀ g : Nat,
      (¬ (leafCertOf (select o DEFAULT_COMMON_CERT_OPTIONS) ca now g).notAfter <
        daysFromNow (select o DEFAULT_COMMON_CERT_OPTIONS).minRunDays now) ∧
      (leafCertOf (select o DEFAULT_COMMON_CERT_OPTIONS) ca now g).issuer =
        ca.subject ∧
      (leafCertOf (select o DEFAULT_COMMON_CERT_OPTIONS) ca now g).notBefore ≥
        ca.notBefore := by
    intro g
    refine ⟨not_lt_of_ge ?_, rfl, ?_⟩
    · simpa [leafCertOf] using hmrd
    · simpa [leafCertOf] using hcaNB
  have hregenCase : ∀ (sR : Sys) (tr : List Eff),
      issue m o now st =
        addTrace tr (issueRegen m o (select o DEFAULT_COMMON_CERT_OPTIONS) now sR) →
      ∃ kc2 m2 st2 tr2,
        issue m1 o now st1 = (.ok (kc2, m2), st2, tr2) ∧
        kc2.cert = kc1.cert ∧ kc2.key = kc1.key := by
    intro sR tr hev
    rcases issueRegen_cases m ca o now sR hpair hck htemp with
      ⟨e, st', tr', herr⟩ | ⟨stW, trW, hok, hcf2, hsv2⟩
    · rw [hev, herr] at h1
      simp [addTrace] at h1
    · rw [hev, hok] at h1
      simp only [addTrace] at h1
      simp only [Prod.mk.injEq, Except.ok.injEq] at h1
      obtain ⟨⟨hkc, hm⟩, hst, htr⟩ := h1
      subst hkc
      subst hm
      subst hst
      have h2nd := issue_reuse_of_hit m ca o now stW
        (leafCertOf (select o DEFAULT_COMMON_CERT_OPTIONS) ca now sR.gen)
        (privPem sR.gen) h0 hs hpair hforce htemp hnk hh hcf2 hsv2
        (privPem_ne sR.gen) (hleafCond sR.gen).1 (hleafCond sR.gen).2.1
        (hleafCond sR.gen).2.2
      exact ⟨_, _, _, _, h2nd, by simp, by simp⟩
  rcases hcf : st.fsGet (issuePaths o).certName with _ | e
  · -- no certificate file: the first call regenerates from st
    have hread := read_noCert (select o DEFAULT_COMMON_CERT_OPTIONS)
      (primaryHost (select o DEFAULT_COMMON_CERT_OPTIONS).host)
      (.known ca) st (by simpa [issuePaths] using hcf)
    exact hregenCase st _ (issue_cached_none m ca o now st h0 hs st _
      hpair hforce htemp hh hread)
  · cases e with
    | dir =>
      have hread := read_certDir (select o DEFAULT_COMMON_CERT_OPTIONS)
        (primaryHost (select o DEFAULT_COMMON_CERT_OPTIONS).host)
        (.known ca) st (by simpa [issuePaths] using hcf)
      have herr := issue_cached_readErr m ca o now st h0 hs .eisdir st _
        hpair hforce htemp hh hread
      rw [h1] at herr
      simp at herr
    | file fd =>
      cases fd with
      | text s =>
        rcases getSecret_shape KEYCHAIN_SERVICE (issuePaths o).keyName st with
          ⟨v, stg, trg, hg⟩ | hg
        · have hread := read_junk_key (select o DEFAULT_COMMON_CERT_OPTIONS)
            (primaryHost (select o DEFAULT_COMMON_CERT_OPTIONS).host)
            (.known ca) st s v stg trg hnk (by simpa [issuePaths] using hcf)
            (by simpa [issuePaths] using hg)
          have herr := issue_cached_readErr m ca o now st h0 hs .parseError stg _
            hpair hforce htemp hh hread
          rw [h1] at herr
          simp at herr
        · have hread := read_keyFail (select o DEFAULT_COMMON_CERT_OPTIONS)
            (primaryHost (select o DEFAULT_COMMON_CERT_OPTIONS).host)
            (.known ca) st (.text s) .eisdir st _ hnk
            (by simpa [issuePaths] using hcf)
            (by simpa [issuePaths] using hg) (by simp)
          have herr := issue_cached_readErr m ca o now st h0 hs .eisdir st _
            hpair hforce htemp hh hread
          rw [h1] at herr
          simp at herr
      | pem c =>
        by_cases hv : truthyOpt (st.secGet KEYCHAIN_SERVICE (issuePaths o).keyName) = true
        · rcases truthyOpt_true hv with ⟨v, hsv, hvne⟩
          by_cases hcond : ¬ c.notAfter <
              daysFromNow (select o DEFAULT_COMMON_CERT_OPTIONS).minRunDays now ∧
              c.issuer = ca.subject ∧ c.notBefore ≥ ca.notBefore
          · have hev := issue_reuse_of_hit m ca o now st c v h0 hs hpair hforce
              htemp hnk hh hcf hsv hvne hcond.1 hcond.2.1 hcond.2.2
            rw [hev] at h1
            simp only [Prod.mk.injEq, Except.ok.injEq] at h1
            obtain ⟨⟨hkc, hm⟩, hst, htr⟩ := h1
            subst hkc
            subst hm
            subst hst
            exact ⟨_, _, _, _, hev, rfl, rfl⟩
          · have hread := read_pem_key (select o DEFAULT_COMMON_CERT_OPTIONS)
              (primaryHost (select o DEFAULT_COMMON_CERT_OPTIONS).host)
              (.known ca) st c (some v) st
              [.kcGet KEYCHAIN_SERVICE (issuePaths o).keyName] hnk
              (by simpa [issuePaths] using hcf)
              (getSecret_hit _ _ _ _ (by simpa [issuePaths] using hsv) hvne)
            have hfail := reuse_fail_of_not c ca
              (daysFromNow (select o DEFAULT_COMMON_CERT_OPTIONS).minRunDays now)
              hcond
            have hev := issue_cached_regen m ca o now st h0 hs _ st _
              hpair hforce htemp hh hread
              (by simpa only [KeyCert.notAfter, KeyCert.notBefore, KeyCert.issuer,
                withFiles_cert, mkKeyCert_cert] using hfail)
            exact hregenCase st _ hev
        · have hvf : truthyOpt (st.secGet KEYCHAIN_SERVICE
              (issuePaths o).keyName) = false := by
            simpa using hv
          rcases hkf : st.fsGet (issuePaths o).keyName with _ | e2
          · -- secret absent everywhere: record loads with no key
            by_cases hcond : ¬ c.notAfter <
                daysFromNow (select o DEFAULT_COMMON_CERT_OPTIONS).minRunDays now ∧
                c.issuer = ca.subject ∧ c.notBefore ≥ ca.notBefore
            · have hev := issue_reuse_of_missingKey m ca o now st c h0 hs hpair
                hforce htemp hnk hh hcf hvf hkf hcond.1 hcond.2.1 hcond.2.2
              rw [hev] at h1
              simp only [Prod.mk.injEq, Except.ok.injEq] at h1
              obtain ⟨⟨hkc, hm⟩, hst, htr⟩ := h1
              subst hkc
              subst hm
              subst hst
              exact ⟨_, _, _, _, hev, rfl, rfl⟩
            · have hread := read_pem_key (select o DEFAULT_COMMON_CERT_OPTIONS)
                (primaryHost (select o DEFAULT_COMMON_CERT_OPTIONS).host)
                (.known ca) st c none st
                [.kcGet KEYCHAIN_SERVICE (issuePaths o).keyName,
                 .fsRead (issuePaths o).keyName] hnk
                (by simpa [issuePaths] using hcf)
                (getSecret_missing _ _ _ (by simpa [issuePaths] using hvf)
                  (by simpa [issuePaths] using hkf))
              have hfail := reuse_fail_of_not c ca
                (daysFromNow (select o DEFAULT_COMMON_CERT_OPTIONS).minRunDays now)
                hcond
              have hev := issue_cached_regen m ca o now st h0 hs _ st _
                hpair hforce htemp hh hread
                (by simpa only [KeyCert.notAfter, KeyCert.notBefore, KeyCert.issuer,
                  withFiles_cert, mkKeyCert_cert] using hfail)
              exact hregenCase st _ hev
          · cases e2 with
            | file d =>
              by_cases hcond : ¬ c.notAfter <
                  daysFromNow (select o DEFAULT_COMMON_CERT_OPTIONS).minRunDays now ∧
                  c.issuer = ca.subject ∧ c.notBefore ≥ ca.notBefore
              · -- reuse after migrating the legacy key
                have hev := issue_reuse_of_migrate m ca o now st c d h0 hs hpair
                  hforce htemp hnk hh hcf hvf hkf hcond.1 hcond.2.1 hcond.2.2
                rw [hev] at h1
                simp only [Prod.mk.injEq, Except.ok.injEq] at h1
                obtain ⟨⟨hkc, hm⟩, hst, htr⟩ := h1
                subst hkc
                subst hm
                subst hst
                have hnepq := keyName_ne_certName
                  (select o DEFAULT_COMMON_CERT_OPTIONS)
                  (primaryHost (select o DEFAULT_COMMON_CERT_OPTIONS).host)
                have hcf2 : ((st.secSet KEYCHAIN_SERVICE (issuePaths o).keyName
                    d.toBytes).fsRm (issuePaths o).keyName).fsGet
                    (issuePaths o).certName = some (.file (.pem c)) := by
                  rw [fsGet_fsRm_ne _ _ _ (by simpa [issuePaths] using hnepq)]
                  simpa using hcf
                by_cases hdb : d.toBytes = ""
                · have h2nd := issue_reuse_of_missingKey m ca o now _ c h0 hs
                    hpair hforce htemp hnk hh hcf2
                    (by simp [hdb, truthyOpt]) (by simp)
                    hcond.1 hcond.2.1 hcond.2.2
                  exact ⟨_, _, _, _, h2nd, by simp, by simp [hdb, truthyOpt]⟩
                · have h2nd := issue_reuse_of_hit m ca o now _ c d.toBytes h0 hs
                    hpair hforce htemp hnk hh hcf2 (by simp) hdb
                    hcond.1 hcond.2.1 hcond.2.2
                  exact ⟨_, _, _, _, h2nd, by simp, by simp⟩
              · have hmig := getSecret_migrate KEYCHAIN_SERVICE
                  (issuePaths o).keyName st d hvf hkf
                have hread := read_pem_key (select o DEFAULT_COMMON_CERT_OPTIONS)
                  (primaryHost (select o DEFAULT_COMMON_CERT_OPTIONS).host)
                  (.known ca) st c (some d.toBytes)
                  ((st.secSet KEYCHAIN_SERVICE (issuePaths o).keyName
                    d.toBytes).fsRm (issuePaths o).keyName)
                  [.kcGet KEYCHAIN_SERVICE (issuePaths o).keyName,
                   .fsRead (issuePaths o).keyName,
                   .kcSet KEYCHAIN_SERVICE (issuePaths o).keyName,
                   .fsRm (issuePaths o).keyName] hnk
                  (by simpa [issuePaths] using hcf)
                  (by simpa [issuePaths] using hmig)
                have hfail := reuse_fail_of_not c ca
                  (daysFromNow (select o DEFAULT_COMMON_CERT_OPTIONS).minRunDays now)
                  hcond
                have hev := issue_cached_regen m ca o now st h0 hs _ _ _
                  hpair hforce htemp hh hread
                  (by simpa only [KeyCert.notAfter, KeyCert.notBefore,
                    KeyCert.issuer, withFiles_cert, mkKeyCert_cert] using hfail)
                exact hregenCase _ _ hev
            | dir =>
              have hg := getSecret_dirfail KEYCHAIN_SERVICE
                (issuePaths o).keyName st hvf hkf
              have hread := read_keyFail (select o DEFAULT_COMMON_CERT_OPTIONS)
                (primaryHost (select o DEFAULT_COMMON_CERT_OPTIONS).host)
                (.known ca) st (.pem c) .eisdir st _ hnk
                (by simpa [issuePaths] using hcf)
                (by simpa [issuePaths] using hg) (by simp)
              have herr := issue_cached_readErr m ca o now st h0 hs .eisdir st _
                hpair hforce htemp hh hread
              rw [h1] at herr
              simp at herr

/-- Counterexample for C2 as stated (every minRunDays at least 0): with
minRunDays = 8 above the seven-day notAfterDays, both calls succeed but
the second call regenerates, returning different key material, so the
result is not byte-identical. -/
theorem c2_minRunDays_cex :
    (0 : Int) ≤ 8 ∧
    (match issue mgrCached { minRunDays := some 8 } 1000000000 stEmpty with
     | (.ok (kc1, m1), st1, _) =>
       (match issue m1 { minRunDays := some 8 } 1000000000 st1 with
        | (.ok (kc2, _), _, _) => decide (kc2.key ≠ kc1.key)
        | (.error _, _, _) => false)
     | (.error _, _, _) => false) = true := by
  constructor
  · decide
  · decide

/-- Witness for C2: two immediate issue calls on the cached manager,
the first generating and writing, the second reusing byte-identically. -/
theorem c2_witness :
    daysFromNow (select emptyOpts DEFAULT_COMMON_CERT_OPTIONS).minRunDays
        1000000000 ≤
      zulu (daysFromNow (select emptyOpts DEFAULT_COMMON_CERT_OPTIONS).notAfterDays
        1000000000) ∧
    caA.notBefore ≤ zulu (1000000000 - 10000) ∧
    ∃ kc1 m1 st1 tr1,
      issue mgrCached emptyOpts 1000000000 stEmpty = (.ok (kc1, m1), st1, tr1) ∧
      ∃ kc2 m2 st2 tr2,
        issue m1 emptyOpts 1000000000 st1 = (.ok (kc2, m2), st2, tr2) ∧
        kc2.cert = kc1.cert ∧ kc2.key = kc1.key := by
  refine ⟨by decide, by decide, ?_⟩
  refine ⟨_, _, _, _, rfl, ?_⟩
  exact c2_issue_idempotent mgrCached caA emptyOpts 1000000000 stEmpty
    "localhost" ["127.0.0.1", "::1"] _ _ _ _ rfl rfl rfl rfl rfl rfl
    (by decide) (by decide) rfl

end CtoCA
